import Mathlib

/-!
Verification of the engrenarium kinematic core against its specification.

This file gives a shallow embedding, in Lean 4, of the three algorithmic
components of the repository:

* the linear kinematic solver (`solveGearSystem`, with the linear-algebra
  primitives of `src/lib/numeric.ts`),
* the per-stage assembly validator (`validarMontagem`),
* the phasing engine (`computeArmAngles`, `computeStagePhasing`).

JavaScript `number` values are idealised as exact rationals (`ℚ`) in the
solver and validator, and as real numbers (`ℝ`) where the source uses
trigonometry (`Math.sin`, `Math.atan2`).  JavaScript exceptions are modelled
with `Except String`; a JavaScript `TypeError` caused by reading a property
of `undefined` is modelled by an `Except.error` at the corresponding read.
Loops are embedded as structurally recursive functions (with an explicit
fuel argument mirroring the loop bound), so every rational-valued definition
is executable by the kernel.  Presentation-only data of the source (the
localised message strings of the validator, the `tag`/`debug` fields of the
solver) is not carried in the embedded results.
-/

namespace Engrenarium

/-! ## Data model (`src/lib/types.ts`) -/

/-- Element kind, from `types.ts` (`'solar' | 'planet' | 'annulus' | 'arm'`). -/
inductive ElementType where
  | solar | planet | annulus | arm
  deriving DecidableEq

/-- A rotating body (`Element` of `types.ts`): its optional tooth count `N`
and the name `omega` of its angular-velocity variable. -/
structure Element where
  id : String
  type : ElementType
  N : Option ℚ
  omega : String
  deriving DecidableEq

/-- Mesh engagement kind (`'external' | 'internal'`). -/
inductive MeshType where
  | external | internal
  deriving DecidableEq

/-- A mesh between the gears with velocity variables `i` and `j`, relative to
the carrier variable `carrier` (`Mesh` of `types.ts`).  Either the optional
`type` tag or the optional numeric `sigma` fixes the sign factor. -/
structure Mesh where
  i : String
  j : String
  carrier : String
  type : Option MeshType
  sigma : Option ℚ
  deriving DecidableEq

/-- Constraint kind (`'known' | 'equal' | 'lock'`). -/
inductive ConstraintType where
  | known | equal | lock
  deriving DecidableEq

/-- A scalar constraint on velocity variables (`Constraint` of `types.ts`). -/
structure Constraint where
  type : ConstraintType
  var : Option String
  a : Option String
  b : Option String
  value : Option ℚ
  deriving DecidableEq

/-- A ratio request (`Ratio` of `types.ts`). -/
structure Ratio where
  id : String
  num : String
  den : String
  deriving DecidableEq

/-- A carrier entry of `Model.carriers`. -/
structure CarrierRef where
  id : String
  omega : String
  deriving DecidableEq

/-- The model aggregate (`Model` of `types.ts`); `carriers`, `constraints`
and `ratios` are optional in the source and default to `[]` at use sites. -/
structure Model where
  elements : List Element
  carriers : Option (List CarrierRef)
  meshes : List Mesh
  constraints : Option (List Constraint)
  ratios : Option (List Ratio)
  deriving DecidableEq

/-! ## Variable collection (`solveGearSystem`, lines 35-46)

The source collects variables into a JavaScript `Set` (insertion ordered,
deduplicating) and then maps each variable to its index.  A constraint field
is added only when truthy (`if (cx.var) vars.add(cx.var)`), which skips both
an absent field and the empty string. -/

/-- Add a variable to the insertion-ordered, duplicate-free list. -/
def addVar (vs : List String) (v : String) : List String :=
  if v ∈ vs then vs else vs ++ [v]

/-- Add an optional constraint field, modelling the JavaScript truthiness
test (absent or empty-string fields are skipped). -/
def addVarOpt (vs : List String) (v : Option String) : List String :=
  match v with
  | some s => if s = "" then vs else addVar vs s
  | none => vs

/-- The insertion-ordered list of distinct velocity variables of a model:
element variables, then carrier variables, then constraint variables. -/
def buildVars (model : Model) : List String :=
  let vs := model.elements.foldl (fun acc e => addVar acc e.omega) []
  let vs := (model.carriers.getD []).foldl (fun acc c => addVar acc c.omega) vs
  (model.constraints.getD []).foldl
    (fun acc cx => addVarOpt (addVarOpt (addVarOpt acc cx.var) cx.a) cx.b) vs

/-- `vidx[v]`: the index of `v` in the variable list, `none` when absent
(modelling a JavaScript `undefined` index). -/
def vidx (vs : List String) (v : String) : Option ℕ :=
  vs.findIdx? (fun s => s = v)

/-! ## Row construction (`solveGearSystem`, lines 47-80)

A JavaScript write `row[vidx[v]] op e` with `vidx[v] = undefined` sets the
string property `"undefined"` of the array and leaves its numeric entries
unchanged; `updRow`/`setRow` with a `none` index are accordingly the
identity on the embedded row. -/

/-- One stacked row (`{A, b}`; the presentation-only `tag` is omitted). -/
structure Row where
  A : List ℚ
  b : ℚ
  deriving DecidableEq

/-- `row[idx] += d` (no-op on the numeric entries for an undefined index). -/
def updRow (row : List ℚ) (idx : Option ℕ) (d : ℚ) : List ℚ :=
  match idx with
  | some k => row.set k (row.getD k 0 + d)
  | none => row

/-- `row[idx] = x` (no-op on the numeric entries for an undefined index). -/
def setRow (row : List ℚ) (idx : Option ℕ) (x : ℚ) : List ℚ :=
  match idx with
  | some k => row.set k x
  | none => row

/-- The sign factor of a mesh:
`'type' in m ? (m.type === 'external' ? +1 : -1) : (m.sigma ?? 1)`. -/
def sigmaOf (m : Mesh) : ℚ :=
  match m.type with
  | some MeshType.external => 1
  | some MeshType.internal => -1
  | none => (m.sigma).getD 1

/-- `lookupN`: the tooth count of the first element whose `omega` matches,
raising on a dangling reference or a missing numeric tooth count. -/
def lookupN (model : Model) (omegaId : String) : Except String ℚ :=
  match model.elements.find? (fun e => e.omega = omegaId) with
  | none => Except.error ("Elemento não encontrado para " ++ omegaId)
  | some e =>
    match e.N with
    | none => Except.error ("Elemento " ++ omegaId ++ " sem N")
    | some n => Except.ok n

/-- The stacked row of one mesh:
`Ni·ω_i − Ni·ω_c + σ·Nj·ω_j − σ·Nj·ω_c = 0`, raising at the first failing
tooth-count lookup. -/
def meshRow (model : Model) (vs : List String) (m : Mesh) : Except String Row :=
  match lookupN model m.i with
  | Except.error e => Except.error e
  | Except.ok Ni =>
    match lookupN model m.j with
    | Except.error e => Except.error e
    | Except.ok Nj =>
      let sg := sigmaOf m
      let row := List.replicate vs.length (0 : ℚ)
      let row := updRow row (vidx vs m.i) Ni
      let row := updRow row (vidx vs m.carrier) (-Ni)
      let row := updRow row (vidx vs m.j) (sg * Nj)
      let row := updRow row (vidx vs m.carrier) (-(sg * Nj))
      Except.ok { A := row, b := 0 }

/-- The stacked rows of the meshes, in order, stopping at the first failing
tooth-count lookup (mirroring the JavaScript loop that throws). -/
def meshRows (model : Model) (vs : List String) : List Mesh → Except String (List Row)
  | [] => Except.ok []
  | m :: ms =>
    match meshRow model vs m with
    | Except.error e => Except.error e
    | Except.ok r =>
      match meshRows model vs ms with
      | Except.error e => Except.error e
      | Except.ok rest => Except.ok (r :: rest)

/-- The stacked row of one constraint (`known` / `equal` / `lock`). -/
def constraintRow (vs : List String) (c : Constraint) : Row :=
  let zero := List.replicate vs.length (0 : ℚ)
  match c.type with
  | ConstraintType.known =>
    { A := setRow zero (c.var.bind (vidx vs)) 1, b := (c.value).getD 0 }
  | ConstraintType.equal =>
    let row := setRow zero (c.a.bind (vidx vs)) 1
    { A := updRow row (c.b.bind (vidx vs)) (-1), b := 0 }
  | ConstraintType.lock =>
    { A := setRow zero (c.var.bind (vidx vs)) 1, b := 0 }

/-- All stacked rows of a model: mesh rows then constraint rows. -/
def buildRows (model : Model) : Except String (List Row) :=
  match meshRows model (buildVars model) model.meshes with
  | Except.error e => Except.error e
  | Except.ok mrows =>
    Except.ok (mrows ++ ((model.constraints.getD []).map (constraintRow (buildVars model))))

/-! ## Rank computation (`rankOf`, lines 84-108) -/

/-- Pivot tolerance of `rankOf` (`eps = 1e-9`). -/
def epsRank : ℚ := 1 / 1000000000

/-- `A[i][j]` with out-of-range reads giving `0` (all in-range at use). -/
def getA (A : List (List ℚ)) (i j : ℕ) : ℚ := (A.getD i []).getD j 0

/-- Partial-pivot search of `rankOf`: the row index `p ∈ [r, n)` maximising
`|A[p][c]|`, scanning upward and keeping the earlier row on ties. -/
def pivotSearch (A : List (List ℚ)) (r c n : ℕ) : ℕ :=
  (List.range' (r + 1) (n - (r + 1))).foldl
    (fun p i => if |getA A i c| > |getA A p c| then i else p) r

/-- Swap rows `r` and `p` (`[A[r], A[pivot]] = [A[pivot], A[r]]`). -/
def swapRows (A : List (List ℚ)) (r p : ℕ) : List (List ℚ) :=
  (A.set r (A.getD p [])).set p (A.getD r [])

/-- Normalise row `r` by `dv` on columns `c ≤ j < m`. -/
def normRow (A : List (List ℚ)) (r c m : ℕ) (dv : ℚ) : List (List ℚ) :=
  A.set r ((A.getD r []).mapIdx (fun j x => if c ≤ j ∧ j < m then x / dv else x))

/-- Eliminate column `c` from every row `i ≠ r` using the (already
normalised) pivot row `r`, on columns `c ≤ j < m`. -/
def elimCol (A : List (List ℚ)) (r c m : ℕ) : List (List ℚ) :=
  A.mapIdx (fun i row =>
    if i = r then row
    else row.mapIdx (fun j x => if c ≤ j ∧ j < m then x - row.getD c 0 * getA A r j else x))

/-- The `while (r < n && c < m)` loop of `rankOf`, with fuel `m - c`
(the column index advances by one on every iteration). -/
def rankOfAux (n m : ℕ) : ℕ → List (List ℚ) → ℕ → ℕ → ℕ
  | 0, _, r, _ => r
  | fuel + 1, A, r, c =>
    if r < n ∧ c < m then
      let p := pivotSearch A r c n
      if |getA A p c| < epsRank then rankOfAux n m fuel A r (c + 1)
      else
        let A1 := swapRows A r p
        let A2 := normRow A1 r c m (getA A1 r c)
        rankOfAux n m fuel (elimCol A2 r c m) (r + 1) (c + 1)
    else r

/-- `rankOf`: Gaussian elimination with partial pivoting at tolerance
`1e-9`, returning the number of accepted pivots. -/
def rankOf (M : List (List ℚ)) : ℕ :=
  let n := M.length
  let m := (M.headD []).length
  rankOfAux n m m M 0 0

/-! ## Linear-algebra primitives (`src/lib/numeric.ts`) -/

/-- `transpose`: `M[0].map((_, j) => M.map(row => row[j]))`.  On an empty
matrix the source would throw reading `M[0]`; that case is unreachable on
the solver path (the stacked matrix is non-empty there) and is mapped to
`[]`. -/
def transpose (M : List (List ℚ)) : List (List ℚ) :=
  match M with
  | [] => []
  | r0 :: _ => (List.range r0.length).map (fun j => M.map (fun row => row.getD j 0))

/-- `matMul`; reading `A[0].length`/`B[0].length` of an empty operand throws
in the source, modelled by `Except.error`. -/
def matMul (A B : List (List ℚ)) : Except String (List (List ℚ)) :=
  match A, B with
  | a0 :: _, b0 :: _ =>
    Except.ok ((List.range A.length).map (fun i =>
      (List.range b0.length).map (fun j =>
        (List.range a0.length).foldl (fun s t => s + getA A i t * getA B t j) 0)))
  | _, _ => Except.error "TypeError: Cannot read properties of undefined (reading 'length')"

/-- `matVec`: `A.map(row => row.reduce((s, ai, i) => s + ai * x[i], 0))`. -/
def matVec (A : List (List ℚ)) (x : List ℚ) : List ℚ :=
  A.map (fun row => (List.range row.length).foldl (fun s i => s + row.getD i 0 * x.getD i 0) 0)

/-- Pivot tolerance of `solveGaussian` (`1e-15`). -/
def epsSolve : ℚ := 1 / 1000000000000000

/-- One normalise-and-eliminate step of `solveGaussian` on the augmented
matrix `M` (rows of length `n + 1`), for pivot column `c`; the source skips
elimination rows whose factor is zero (`if (f !== 0)`). -/
def gaussStep (M : List (List ℚ)) (c n : ℕ) : List (List ℚ) :=
  let p := pivotSearch M c c n
  if |getA M p c| < epsSolve then M
  else
    let M1 := swapRows M c p
    let M2 := M1.set c ((M1.getD c []).mapIdx (fun j x =>
      if c ≤ j ∧ j ≤ n then x / getA M1 c c else x))
    M2.mapIdx (fun i row =>
      if i = c then row
      else if row.getD c 0 = 0 then row
      else row.mapIdx (fun j x =>
        if c ≤ j ∧ j ≤ n then x - row.getD c 0 * getA M2 c j else x))

/-- The `for (let c = 0; c < n; c++)` loop of `solveGaussian`, with fuel. -/
def gaussLoop (n : ℕ) : ℕ → List (List ℚ) → ℕ → List (List ℚ)
  | 0, M, _ => M
  | fuel + 1, M, c =>
    if c < n then gaussLoop n fuel (gaussStep M c n) (c + 1) else M

/-- `solveGaussian`: Gauss-Jordan elimination with partial pivoting on the
augmented matrix, skipping columns whose best pivot is below `1e-15`, and
returning the final augmented column. -/
def solveGaussian (A : List (List ℚ)) (b : List ℚ) : List ℚ :=
  let n := A.length
  let M := A.mapIdx (fun i row => row ++ [b.getD i 0])
  (gaussLoop n n M 0).map (fun row => row.getD n 0)

/-- `leastSquares`: solve the normal equations `(AᵀA)·ω = Aᵀb`. -/
def leastSquares (A : List (List ℚ)) (b : List ℚ) : Except String (List ℚ) :=
  match matMul (transpose A) A with
  | Except.error e => Except.error e
  | Except.ok ATA => Except.ok (solveGaussian ATA (matVec (transpose A) b))

/-! ## The solver (`solveGearSystem`) -/

/-- The augmented matrix `[A|b]` (`A.map((row, i) => [...row, b[i]])`). -/
def augment (A : List (List ℚ)) (b : List ℚ) : List (List ℚ) :=
  A.mapIdx (fun i row => row ++ [b.getD i 0])

/-- The ratio value reported for one ratio request; `none` models the
`NaN` produced either by an absent velocity or by the near-zero-denominator
guard `Math.abs(den) < 1e-12`. -/
def ratioValue (velocities : List (String × ℚ)) (r : Ratio) : Option ℚ :=
  match velocities.lookup r.num, velocities.lookup r.den with
  | some nu, some de => if |de| < 1 / 1000000000000 then none else some (nu / de)
  | _, _ => none

/-- The three result shapes of `solveGearSystem`: a solved velocity map, the
underdetermined variant, or the overdetermined variant.  (The constant
fields of the source objects — empty `velocities`, empty `ratios`, the zero
`missingConstraints` of the overdetermined object, `debug` — are omitted.) -/
inductive SolveOutcome where
  | solved (varList : List String) (velocities : List (String × ℚ))
      (ratios : List (String × Option ℚ))
  | under (undetermined : List String) (missingConstraints : ℤ)
  | over (conflictingConstraints : ℤ)
  deriving DecidableEq

/-- `solveGearSystem`: build the stacked system, classify it by rank, and
solve by least squares.  Reading `A[0].length` of an empty stacked matrix
throws a `TypeError` in the source (modelled as `Except.error`), as does
`matMul` on the empty transpose when there are no variables. -/
def solveGearSystem (model : Model) : Except String SolveOutcome :=
  let vlist := buildVars model
  match buildRows model with
  | Except.error e => Except.error e
  | Except.ok rows =>
    let A := rows.map Row.A
    let b := rows.map Row.b
    let rank := rankOf A
    match A with
    | [] => Except.error "TypeError: Cannot read properties of undefined (reading 'length')"
    | r0 :: _ =>
      let nVars := r0.length
      let missingConstraints : ℤ := max 0 ((nVars : ℤ) - (rank : ℤ))
      let rankAug := rankOf (augment A b)
      if rank < rankAug then
        let extraEq : ℤ := (rows.length : ℤ) - (nVars : ℤ)
        Except.ok (SolveOutcome.over (max 1 (max ((rankAug : ℤ) - (rank : ℤ)) extraEq)))
      else if rank < nVars then
        Except.ok (SolveOutcome.under vlist missingConstraints)
      else
        match leastSquares A b with
        | Except.error e => Except.error e
        | Except.ok sol =>
          let velocities := vlist.mapIdx (fun i v => (v, sol.getD i 0))
          let ratios := (model.ratios.getD []).map (fun r => (r.id, ratioValue velocities r))
          Except.ok (SolveOutcome.solved vlist velocities ratios)

/-- Claim-side accessor: the velocity map entry of variable `x` when the
solver returned the solved variant, `none` otherwise. -/
def solvedVelocity (r : Except String SolveOutcome) (x : String) : Option ℚ :=
  match r with
  | Except.ok (SolveOutcome.solved _ vels _) => vels.lookup x
  | _ => none

/-! ## The claim C1 model: sun 20 teeth pinned at 10 rpm, ring 60 teeth
locked, one planet of 20 teeth, one carrier of unknown speed. -/

/-- The single-stage model of claim C1. -/
def c1Model : Model :=
  { elements :=
      [ { id := "sun", type := ElementType.solar, N := some 20, omega := "s" }
      , { id := "p1", type := ElementType.planet, N := some 20, omega := "p" }
      , { id := "ring", type := ElementType.annulus, N := some 60, omega := "a" } ]
  , carriers := some [{ id := "carrier", omega := "c" }]
  , meshes :=
      [ { i := "s", j := "p", carrier := "c", type := some MeshType.external, sigma := none }
      , { i := "p", j := "a", carrier := "c", type := some MeshType.internal, sigma := none } ]
  , constraints := some
      [ { type := ConstraintType.known, var := some "s", a := none, b := none, value := some 10 }
      , { type := ConstraintType.lock, var := some "a", a := none, b := none, value := none } ]
  , ratios := none }

/-- Decidable equality for `Except` results (used to evaluate the solver on
concrete models). -/
instance {ε α : Type} [DecidableEq ε] [DecidableEq α] : DecidableEq (Except ε α) :=
  fun x y =>
    match x, y with
    | Except.ok a, Except.ok b =>
      if h : a = b then Decidable.isTrue (by rw [h])
      else Decidable.isFalse (fun hc => h (Except.ok.inj hc))
    | Except.error a, Except.error b =>
      if h : a = b then Decidable.isTrue (by rw [h])
      else Decidable.isFalse (fun hc => h (Except.error.inj hc))
    | Except.ok _, Except.error _ => Decidable.isFalse (fun hc => Except.noConfusion hc)
    | Except.error _, Except.ok _ => Decidable.isFalse (fun hc => Except.noConfusion hc)

/-- `true` exactly on `Except.ok` (the call returned without throwing). -/
def isOkE {ε α : Type} : Except ε α → Bool
  | Except.ok _ => true
  | Except.error _ => false

/-! ## Claim-side helpers for the solver claims -/

/-- Whether both engaged members of a mesh resolve to an element with a
numeric tooth count. -/
def meshResolvable (model : Model) (m : Mesh) : Bool :=
  isOkE (lookupN model m.i) && isOkE (lookupN model m.j)

/-- Claim C7 counterexample input: a mesh whose `carrier` variable matches
no element (and no carrier entry) of the model. -/
def c7CarrierModel : Model :=
  { elements :=
      [ { id := "gx", type := ElementType.solar, N := some 2, omega := "x" }
      , { id := "gy", type := ElementType.planet, N := some 3, omega := "y" } ]
  , carriers := some []
  , meshes :=
      [ { i := "x", j := "y", carrier := "c", type := some MeshType.external, sigma := none } ]
  , constraints := some []
  , ratios := none }

/-- Claim C2 witness input: two conflicting `known` constraints on one
variable. -/
def c2OverModel : Model :=
  { elements := [{ id := "gx", type := ElementType.solar, N := some 5, omega := "x" }]
  , carriers := some []
  , meshes := []
  , constraints := some
      [ { type := ConstraintType.known, var := some "x", a := none, b := none, value := some 1 }
      , { type := ConstraintType.known, var := some "x", a := none, b := none, value := some 2 } ]
  , ratios := none }

/-- Claim C2 counterexample input: one element and no meshes or
constraints, so no row at all is emitted. -/
def c2NoRowsModel : Model :=
  { elements := [{ id := "gx", type := ElementType.solar, N := some 5, omega := "x" }]
  , carriers := some []
  , meshes := []
  , constraints := some []
  , ratios := none }

/-- Claim C7 witness input: a mesh whose engaged member `"z"` matches no
element. -/
def c7DanglingMeshModel : Model :=
  { elements := [{ id := "gx", type := ElementType.solar, N := some 2, omega := "x" }]
  , carriers := some [{ id := "carrier", omega := "c" }]
  , meshes :=
      [ { i := "x", j := "z", carrier := "c", type := some MeshType.external, sigma := none } ]
  , constraints := some []
  , ratios := none }

/-- The model of claim C8: a sun and a planet of `1e-8` teeth in an
internal mesh on a locked carrier, with the planet speed known.  The unique
exact solution is `x = y = 1`, `c = 0`. -/
def c8Model : Model :=
  { elements :=
      [ { id := "gx", type := ElementType.solar, N := some (1 / 100000000), omega := "x" }
      , { id := "gy", type := ElementType.planet, N := some (1 / 100000000), omega := "y" } ]
  , carriers := some [{ id := "carrier", omega := "c" }]
  , meshes :=
      [ { i := "x", j := "y", carrier := "c", type := some MeshType.internal, sigma := none } ]
  , constraints := some
      [ { type := ConstraintType.known, var := some "y", a := none, b := none, value := some 1 }
      , { type := ConstraintType.lock, var := some "c", a := none, b := none, value := none } ]
  , ratios := none }

/-- Extend a model with one additional `known` constraint per entry of a
velocity map (the feedback step of the claimed round-trip invariant). -/
def extendWithKnowns (m : Model) (vels : List (String × ℚ)) : Model :=
  { m with constraints := some ((m.constraints.getD []) ++ vels.map (fun p =>
      { type := ConstraintType.known, var := some p.1, a := none, b := none
      , value := some p.2 })) }

/-- The claimed round-trip invariant at one model: if the solver returns a
velocity map, re-solving with every solved velocity fed back as a `known`
constraint returns a velocity map with the same entries.  (Vacuously `true`
when the first solve does not return a velocity map.) -/
def roundTripHolds (m : Model) : Bool :=
  match solveGearSystem m with
  | Except.ok (SolveOutcome.solved _ vels _) =>
    match solveGearSystem (extendWithKnowns m vels) with
    | Except.ok (SolveOutcome.solved _ vels2 _) => vels2 = vels
    | _ => false
  | _ => true

/-- `true` exactly when the solver returned the solved variant. -/
def isSolvedOutcome (r : Except String SolveOutcome) : Bool :=
  match r with
  | Except.ok (SolveOutcome.solved _ _ _) => true
  | _ => false

/-- The stacked rows of a model (`[]` when row construction throws);
claim-side accessor for stating rank conditions. -/
def stackedRows (m : Model) : List Row :=
  match buildRows m with
  | Except.ok rows => rows
  | Except.error _ => []

/-- The velocity map the solver actually returns on `c8Model` (computed by
the embedded solver; the exact solution would be `x = y = 1`, `c = 0`). -/
def c8Vels : List (String × ℚ) :=
  [ ("x", 1 / 10000000000000001)
  , ("y", 10000000000000000 / 10000000000000001)
  , ("c", 0) ]

/-! ## JavaScript numeric helpers on `ℚ` -/

/-- JavaScript truncation toward zero, on rationals. -/
def jsTruncQ (q : ℚ) : ℤ := if 0 ≤ q then ⌊q⌋ else ⌈q⌉

/-- JavaScript remainder `a % b` (sign follows the dividend), on rationals. -/
def jsFmodQ (a b : ℚ) : ℚ := a - b * (jsTruncQ (a / b) : ℚ)

/-- `Math.round`: nearest integer, halves rounded toward `+∞`. -/
def jsRoundQ (q : ℚ) : ℤ := ⌊q + 1 / 2⌋

/-! ## Assembly validator (`validarMontagem`) -/

/-- The four assembly kinds of `MontagemTipo`. -/
inductive MontagemTipo where
  | reto | curvo | aberta | impossivel
  deriving DecidableEq

/-- The validator result (`MontagemStatus`); the localised message strings
(`mensagem`, `mensagem_en`), which carry no algorithmic content, are not
modelled. -/
structure MontagemStatus where
  tipo : MontagemTipo
  valido : Bool
  deriving DecidableEq

/-- The no-sun branch of `validarMontagem` (ring present, sun absent):
the inscribed-circles clearance test against the ring.  `Math.sin` is
idealised as `Real.sin`; the `!Number.isFinite(s)` guard of the source is
always false for real inputs, and the `Infinity` minimum ring size produced
by the `s ≤ 1e-6` branch makes the comparison `NaAbs < minNa`
unconditionally true, which is how that branch is rendered here. -/
noncomputable def semSolarStatus (na : ℚ) (Np : List ℚ) (planetCopies : ℚ) :
    MontagemStatus :=
  let copies : ℤ := max 1 (jsRoundQ (if planetCopies = 0 then 1 else planetCopies))
  let NaAbs : ℚ := |na|
  if 1 ≤ Np.length then
    let Zc : ℚ := |(Np.getLast?).getD 0|
    if copies ≤ 1 then
      if NaAbs ≤ Zc then { tipo := MontagemTipo.impossivel, valido := false }
      else { tipo := MontagemTipo.aberta, valido := true }
    else
      let s : ℝ := Real.sin (Real.pi / (copies : ℝ))
      if s ≤ 1 / 1000000 then { tipo := MontagemTipo.impossivel, valido := false }
      else if (NaAbs : ℝ) < ((⌈(Zc : ℝ) * (1 + 1 / s)⌉ : ℤ) : ℝ) then
        { tipo := MontagemTipo.impossivel, valido := false }
      else { tipo := MontagemTipo.aberta, valido := true }
  else { tipo := MontagemTipo.aberta, valido := true }

/-- `validarMontagem`: assemblability of one planetary stage from the sun
tooth count `Ns` (optional), the planet-chain tooth counts `Np`, the ring
tooth count `Na` (optional) and the number of orbiting planet copies. -/
noncomputable def validarMontagem (Ns : Option ℚ) (Np : List ℚ) (Na : Option ℚ)
    (planetCopies : ℚ) : MontagemStatus :=
  if Ns.isSome ∧ Na.isSome ∧ Np.length = 0 then { tipo := MontagemTipo.impossivel, valido := false }
  else
    match Na with
    | none => { tipo := MontagemTipo.aberta, valido := true }
    | some na =>
      match Ns with
      | none => semSolarStatus na Np planetCopies
      | some ns =>
        if Np.length = 1 then
          let esperado := ns + 2 * Np.getD 0 0
          if na ≠ esperado then { tipo := MontagemTipo.impossivel, valido := false }
          else { tipo := MontagemTipo.reto, valido := true }
        else if Np.length = 2 then
          let mx := ns + 2 * (Np.getD 0 0 + Np.getD 1 0)
          if mx < na then { tipo := MontagemTipo.impossivel, valido := false }
          else if na = mx then { tipo := MontagemTipo.reto, valido := true }
          else { tipo := MontagemTipo.curvo, valido := true }
        else
          let mx := ns + 2 * Np.sum
          if mx < na then { tipo := MontagemTipo.impossivel, valido := false }
          else if na = mx then { tipo := MontagemTipo.reto, valido := true }
          else { tipo := MontagemTipo.curvo, valido := true }

/-! ## Phasing engine (`src/render/phasing.ts`) -/

/-- `TAU = Math.PI * 2`. -/
noncomputable def TAU : ℝ := Real.pi * 2

/-- JavaScript truncation toward zero, on reals. -/
noncomputable def jsTrunc (x : ℝ) : ℤ := if 0 ≤ x then ⌊x⌋ else ⌈x⌉

/-- JavaScript remainder `a % b` (sign follows the dividend), on reals. -/
noncomputable def jsFmod (a b : ℝ) : ℝ := a - b * (jsTrunc (a / b) : ℝ)

/-- `mod2pi`: reduce an angle into `[0, 2π)`. -/
noncomputable def mod2pi (a : ℝ) : ℝ :=
  let x := jsFmod a TAU
  if x < 0 then x + TAU else x

/-- `Math.round` on reals: nearest integer, halves toward `+∞`. -/
noncomputable def jsRound (x : ℝ) : ℤ := ⌊x + 1 / 2⌋

/-- The clamped copy count `Math.max(1, Math.min(5, Math.round(Nraw || 1)))`. -/
def armCopies (Nraw : ℚ) : ℕ :=
  (max 1 (min 5 (jsRoundQ (if Nraw = 0 then 1 else Nraw)))).toNat

/-- The direction factor `D`: `+1` for an odd-length planet chain, `−1` for
an even one (`k = Math.max(1, planetsZ.length)`). -/
def dFactor (planetsZ : List ℚ) : ℤ :=
  if (max 1 planetsZ.length) % 2 ≠ 0 then 1 else -1

/-- The effective tooth count `Z_eff = |Zs + D·|Zr||`. -/
def zEffOf (zSun zRing : ℚ) (planetsZ : List ℚ) : ℚ :=
  abs (zSun + (dFactor planetsZ : ℚ) * (abs zRing))

/-- `computeArmAngles`: the copy angles of the carrier arms.  With a sun
and a ring present and `Z_eff ≠ 0`, each copy angle is
`mod2pi(round(target/θ̂)·θ̂)` for the tick `θ̂ = 2π/Z_eff` and the ideal
target `2π·m/N`; otherwise the copies are equally spaced. -/
noncomputable def computeArmAngles (Nraw : ℚ) (zSun zRing : Option ℚ)
    (planetsZ : List ℚ) : List ℝ :=
  let N := armCopies Nraw
  if N ≤ 1 then [0]
  else
    match zRing, zSun with
    | some zr, some zs =>
      let Z := zEffOf zs zr planetsZ
      if Z = 0 then (List.range N).map (fun (i : ℕ) => TAU * (i : ℝ) / (N : ℝ))
      else
        let thetaHat := TAU / (Z : ℝ)
        (List.range N).map (fun (m : ℕ) =>
          mod2pi ((jsRound ((TAU * (m : ℝ) / (N : ℝ)) / thetaHat) : ℝ) * thetaHat))
    | _, _ => (List.range N).map (fun (i : ℕ) => TAU * (i : ℝ) / (N : ℝ))

/-- The phasing input (`In` of `phasing.ts`). -/
structure PhasingIn where
  stageId : ℕ
  solarZ : Option ℚ
  annulusZ : Option ℚ
  planetsZ : List ℚ
  copies : ℚ
  positions : List (ℝ × ℝ)

/-- The phasing output (`Out` of `phasing.ts`). -/
structure PhasingOut where
  copyAngles : List ℝ
  planetOriginal : List ℝ
  planetCoupled : Option (List ℝ)
  sunPhase : Option ℝ
  ringPhase : Option ℝ
  gearPhaseMap : List (String × ℝ)

/-- `Math.atan2` (the −0 inputs of JavaScript are not distinguished). -/
noncomputable def jsAtan2 (y x : ℝ) : ℝ :=
  if 0 < x then Real.arctan (y / x)
  else if x < 0 then
    (if 0 ≤ y then Real.arctan (y / x) + Real.pi else Real.arctan (y / x) - Real.pi)
  else if 0 < y then Real.pi / 2
  else if y < 0 then -(Real.pi / 2)
  else 0

/-- The planet base positions with the global rotation of the layout removed
(rotation by minus the angle of the first position). -/
noncomputable def normPositionsOf (positions : List (ℝ × ℝ)) : List (ℝ × ℝ) :=
  match positions with
  | [] => []
  | (x0, y0) :: _ =>
    let baseAng := jsAtan2 y0 x0
    let cosB := Real.cos (-baseAng)
    let sinB := Real.sin (-baseAng)
    positions.map (fun p => (p.1 * cosB - p.2 * sinB, p.1 * sinB + p.2 * cosB))

/-- The position angles `β` of the normalised planet centers. -/
noncomputable def betaAnglesOf (normPositions : List (ℝ × ℝ)) : List ℝ :=
  normPositions.map (fun p => jsAtan2 p.2 p.1)

/-- The `TypeError` thrown by `currPos[0]` when `normPositions[k]` is
`undefined`. -/
def typeErrorMsg : String := "TypeError: Cannot read properties of undefined (reading '0')"

/-- One iteration `k` of the unified planet-phase loop: the absolute phases
of planet `k` for every copy, rolled off the previous element (the sun for
`k = 0`, planet `k − 1` otherwise).  The unguarded read `normPositions[k]`
is the loop's throw point. -/
noncomputable def planetRow (solarZ : Option ℚ) (planetsZ : List ℚ) (N : ℕ)
    (copyAngles : List ℝ) (norm : List (ℝ × ℝ)) (k : ℕ) (prevAbs : List ℝ) :
    Except String (List ℝ) :=
  match norm.get? k with
  | none => Except.error typeErrorMsg
  | some currPos =>
    let currZ : ℚ := max 1 |planetsZ.getD k 0|
    let prevZ : ℚ := if k = 0 then (solarZ).getD 0 else max 1 |planetsZ.getD (k - 1) 0|
    let grel : ℚ := prevZ / currZ
    let prevPos : ℝ × ℝ := if k = 0 then ((0 : ℝ), (0 : ℝ)) else norm.getD (k - 1) (0, 0)
    let meshAngle := jsAtan2 (currPos.2 - prevPos.2) (currPos.1 - prevPos.1)
    let parity : ℚ := if jsFmodQ currZ 2 = 0 then 1 else 0
    let extra : ℝ := (parity : ℝ) * (Real.pi / (currZ : ℝ))
    Except.ok ((List.range N).map (fun m =>
      let th := copyAngles.getD m 0
      let phiPrev : ℝ := (if k = 0 then 0 else prevAbs.getD m 0)
      (-phiPrev) * (grel : ℝ) + (th + meshAngle) * (1 + (grel : ℝ)) + extra))

/-- The unified planet-phase loop over the chain indices, threading each
row of absolute phases into the next iteration. -/
noncomputable def planetRowsAux (solarZ : Option ℚ) (planetsZ : List ℚ) (N : ℕ)
    (copyAngles : List ℝ) (norm : List (ℝ × ℝ)) :
    List ℕ → List ℝ → Except String (List (List ℝ))
  | [], _ => Except.ok []
  | k :: ks, prevAbs =>
    match planetRow solarZ planetsZ N copyAngles norm k prevAbs with
    | Except.error e => Except.error e
    | Except.ok row =>
      match planetRowsAux solarZ planetsZ N copyAngles norm ks row with
      | Except.error e => Except.error e
      | Except.ok rest => Except.ok (row :: rest)

/-- `computeStagePhasing`: copy angles, planet phases (with the
ring-anchored recomputation when the stage has a ring but no sun), ring
phase, and the per-gear phase map.  (The initial `planetPhases[0]`
assignment of the source, lines 157–164, is overwritten unread by the
unified loop and is not modelled.) -/
noncomputable def computeStagePhasing (inp : PhasingIn) : Except String PhasingOut :=
  let N := armCopies inp.copies
  let copyAngles := computeArmAngles (N : ℚ) inp.solarZ inp.annulusZ inp.planetsZ
  let sunPhase : Option ℝ := if inp.solarZ.isSome then some 0 else none
  let norm := normPositionsOf inp.positions
  let betaAngles := betaAnglesOf norm
  let len := inp.planetsZ.length
  match planetRowsAux inp.solarZ inp.planetsZ N copyAngles norm (List.range len) [] with
  | Except.error e => Except.error e
  | Except.ok absRows =>
    let planetRows0 := absRows.map (fun row => row.map mod2pi)
    let ringPhase : Option ℝ :=
      match inp.annulusZ with
      | some az =>
        if 1 ≤ len then
          let Za : ℚ := |az|
          if 0 < Za then
            let idx := if 2 ≤ len then len - 1 else 0
            let Zref : ℚ := |inp.planetsZ.getD idx 0|
            let phiRef : ℝ := ((absRows.get? idx).bind (fun r => r.get? 0)).getD
              (((planetRows0.get? idx).bind (fun r => r.get? 0)).getD 0)
            let betaLast := betaAngles.getD idx 0
            some (mod2pi (phiRef * ((Zref : ℝ) / (Za : ℝ)) +
              betaLast * (1 - (Zref : ℝ) / (Za : ℝ))))
          else none
        else none
      | none => none
    let tables : List (List ℝ) × List (List ℝ) :=
      match inp.solarZ, inp.annulusZ, ringPhase with
      | none, some az, some rp =>
        if 1 ≤ len then
          let Za : ℚ := |az|
          if 0 < Za then
            let idx := len - 1
            let Zc : ℚ := max 1 |inp.planetsZ.getD idx 0|
            let baseBeta : ℝ :=
              match betaAngles.get? idx with
              | some bI => bI
              | none => jsAtan2 (((norm.get? idx).map Prod.snd).getD 0)
                  (((norm.get? idx).map Prod.fst).getD 1)
            let newRow := (List.range N).map (fun m =>
              let betaCopy := mod2pi (baseBeta + copyAngles.getD m 0)
              rp * ((Za : ℝ) / (Zc : ℝ)) + betaCopy * (1 - (Za : ℝ) / (Zc : ℝ)))
            let abs1 := absRows.set idx newRow
            let pl1 := planetRows0.set idx (newRow.map mod2pi)
            (List.range idx).reverse.foldl (fun tb k =>
              let Zk : ℚ := max 1 |inp.planetsZ.getD k 0|
              let Znext : ℚ := max 1 |inp.planetsZ.getD (k + 1) 0|
              let grel : ℚ := Zk / Znext
              let currPos := norm.getD k (0, 0)
              let nextPos := (norm.get? (k + 1)).getD currPos
              let meshAngle := jsAtan2 (nextPos.2 - currPos.2) (nextPos.1 - currPos.1)
              let parityNext : ℚ := if jsFmodQ Znext 2 = 0 then 1 else 0
              let extraNext : ℝ := (parityNext : ℝ) * (Real.pi / (Znext : ℝ))
              let row := (List.range N).map (fun m =>
                let th := copyAngles.getD m 0
                let phiNext : ℝ := ((tb.1.get? (k + 1)).bind (fun r => r.get? m)).getD
                  (((tb.2.get? (k + 1)).bind (fun r => r.get? m)).getD 0)
                ((th + meshAngle) * (1 + (grel : ℝ)) + extraNext - phiNext) / (grel : ℝ))
              (tb.1.set k row, tb.2.set k (row.map mod2pi))) (abs1, pl1)
          else (absRows, planetRows0)
        else (absRows, planetRows0)
      | _, _, _ => (absRows, planetRows0)
    let plF := tables.2
    let gearPhaseMap : List (String × ℝ) :=
      (((List.range len).map (fun k => (List.range N).map (fun m =>
        ("omega_p" ++ toString inp.stageId ++ "_" ++ toString (k + 1) ++
          "#copy" ++ toString m,
         ((plF.get? k).bind (fun r => r.get? m)).getD 0)))).flatten)
      ++ (match sunPhase with | some s => [("omega_s" ++ toString inp.stageId, s)] | none => [])
      ++ (match ringPhase with | some rp => [("omega_a" ++ toString inp.stageId, rp)] | none => [])
    Except.ok
      { copyAngles := copyAngles
      , planetOriginal := if 1 ≤ len then plF.getD 0 [] else []
      , planetCoupled := if 2 ≤ len then some (plF.getD 1 []) else none
      , sunPhase := sunPhase
      , ringPhase := ringPhase
      , gearPhaseMap := gearPhaseMap }

/-! ## Theorems -/

set_option maxRecDepth 1000000

/-- **C1.**  For the single-stage model with a sun of 20 teeth pinned at
10 rpm, a ring of 60 teeth locked at 0 rpm, one planet of 20 teeth meshing
externally with the sun and internally with the ring, all on one carrier of
unknown speed, `solveGearSystem` returns a velocity map (not an under- or
over-determined variant) in which the carrier's velocity equals 2.5 rpm. -/
theorem c1_carrier_velocity :
    solvedVelocity (solveGearSystem c1Model) "c" = some (5 / 2) := by
  decide!

/-- Every result of `validarMontagem` is one of the four status/validity
pairs: impossible stages are invalid and the other kinds are valid. -/
theorem validarMontagem_cases (Ns : Option ℚ) (Np : List ℚ) (Na : Option ℚ)
    (copies : ℚ) :
    validarMontagem Ns Np Na copies = { tipo := MontagemTipo.impossivel, valido := false } ∨
    validarMontagem Ns Np Na copies = { tipo := MontagemTipo.reto, valido := true } ∨
    validarMontagem Ns Np Na copies = { tipo := MontagemTipo.curvo, valido := true } ∨
    validarMontagem Ns Np Na copies = { tipo := MontagemTipo.aberta, valido := true } := by
  have hsem : ∀ (na : ℚ),
      semSolarStatus na Np copies = { tipo := MontagemTipo.impossivel, valido := false } ∨
      semSolarStatus na Np copies = { tipo := MontagemTipo.aberta, valido := true } := by
    intro na
    simp only [semSolarStatus]
    split_ifs <;> simp
  rcases Na with _ | na
  · rcases Ns with _ | ns <;> simp [validarMontagem]
  · rcases Ns with _ | ns
    · simp only [validarMontagem]
      rcases hsem na with h | h <;> simp [h]
    · simp only [validarMontagem]
      split_ifs <;> simp

/-- **C10.**  `validarMontagem` returns normally on every input, and its two
status fields are coupled: `valido` is `true` exactly when `tipo` is one of
`reto`, `curvo`, `aberta`, and `false` exactly when `tipo` is `impossivel`. -/
theorem c10_validar_total_coupling (Ns : Option ℚ) (Np : List ℚ) (Na : Option ℚ)
    (copies : ℚ) :
    ((validarMontagem Ns Np Na copies).valido = true ↔
      ((validarMontagem Ns Np Na copies).tipo = MontagemTipo.reto ∨
       (validarMontagem Ns Np Na copies).tipo = MontagemTipo.curvo ∨
       (validarMontagem Ns Np Na copies).tipo = MontagemTipo.aberta)) ∧
    ((validarMontagem Ns Np Na copies).valido = false ↔
      (validarMontagem Ns Np Na copies).tipo = MontagemTipo.impossivel) := by
  rcases validarMontagem_cases Ns Np Na copies with h | h | h | h <;> rw [h] <;> simp

/-- **C3.**  For a stage with a sun, exactly one planet and a ring, the
validator reports valid/`reto` exactly when `Na = Ns + 2·Np`, and
invalid/`impossivel` for every other ring size; in particular
`(Ns=20, Np=[10], Na=40)` is valid `reto` and `(Ns=20, Np=[10], Na=41)` is
`impossivel`. -/
theorem c3_single_planet_equality :
    (∀ (ns np1 na copies : ℚ),
      (validarMontagem (some ns) [np1] (some na) copies =
          { tipo := MontagemTipo.reto, valido := true } ↔ na = ns + 2 * np1) ∧
      (validarMontagem (some ns) [np1] (some na) copies =
          { tipo := MontagemTipo.impossivel, valido := false } ↔ na ≠ ns + 2 * np1)) ∧
    validarMontagem (some 20) [10] (some 40) 1 =
      { tipo := MontagemTipo.reto, valido := true } ∧
    validarMontagem (some 20) [10] (some 41) 1 =
      { tipo := MontagemTipo.impossivel, valido := false } := by
  have key : ∀ (ns np1 na copies : ℚ),
      (validarMontagem (some ns) [np1] (some na) copies =
          { tipo := MontagemTipo.reto, valido := true } ↔ na = ns + 2 * np1) ∧
      (validarMontagem (some ns) [np1] (some na) copies =
          { tipo := MontagemTipo.impossivel, valido := false } ↔ na ≠ ns + 2 * np1) := by
    intro ns np1 na copies
    by_cases h : na = ns + 2 * np1 <;>
      simp [validarMontagem, h, MontagemStatus.mk.injEq]
  refine ⟨key, ?_, ?_⟩
  · have h := (key 20 10 40 1).1.mpr (by norm_num)
    exact h
  · have h := (key 20 10 41 1).2.mpr (by norm_num)
    exact h

/-- Classification of the `impossivel`/`reto`/`curvo` if-chain of the
validator against the limit `S`. -/
theorem montagemTri (S na : ℚ) (r : MontagemStatus)
    (hr : r = if S < na then { tipo := MontagemTipo.impossivel, valido := false }
      else if na = S then { tipo := MontagemTipo.reto, valido := true }
      else { tipo := MontagemTipo.curvo, valido := true }) :
    (r = { tipo := MontagemTipo.impossivel, valido := false } ↔ S < na) ∧
    (r = { tipo := MontagemTipo.reto, valido := true } ↔ na = S) ∧
    (r = { tipo := MontagemTipo.curvo, valido := true } ↔ na < S) := by
  subst hr
  rcases lt_trichotomy S na with h | h | h
  · rw [if_pos h]
    refine ⟨iff_of_true rfl h, iff_of_false (by simp) ?_, iff_of_false (by simp) (not_lt.mpr h.le)⟩
    intro he
    rw [he] at h
    exact lt_irrefl _ h
  · have hn1 : ¬ S < na := not_lt.mpr h.ge
    rw [if_neg hn1, if_pos h.symm]
    exact ⟨iff_of_false (by simp) hn1, iff_of_true rfl h.symm,
      iff_of_false (by simp) (not_lt.mpr h.le)⟩
  · have hn1 : ¬ S < na := not_lt.mpr h.le
    have hn2 : ¬ na = S := ne_of_lt h
    rw [if_neg hn1, if_neg hn2]
    exact ⟨iff_of_false (by simp) hn1, iff_of_false (by simp) hn2, iff_of_true rfl h⟩

/-- On a chain of two or more planets (with sun and ring present) the
validator reduces to the `impossivel`/`reto`/`curvo` if-chain against the
limit `Ns + 2·ΣNp`. -/
theorem validar_two_plus (ns na copies : ℚ) (nps : List ℚ) (hlen : 2 ≤ nps.length) :
    validarMontagem (some ns) nps (some na) copies =
      (if ns + 2 * nps.sum < na then { tipo := MontagemTipo.impossivel, valido := false }
       else if na = ns + 2 * nps.sum then { tipo := MontagemTipo.reto, valido := true }
       else { tipo := MontagemTipo.curvo, valido := true }) := by
  match nps, hlen with
  | a :: b :: rest, _ =>
    rcases rest with _ | ⟨c, rest2⟩
    · simp [validarMontagem]
    · simp [validarMontagem]

/-- The general two-or-more-planet classification of claim C4. -/
theorem c4_multi_planet_key :
    ∀ (ns na copies : ℚ) (nps : List ℚ), 2 ≤ nps.length →
      ((validarMontagem (some ns) nps (some na) copies =
          { tipo := MontagemTipo.impossivel, valido := false } ↔ ns + 2 * nps.sum < na) ∧
       (validarMontagem (some ns) nps (some na) copies =
          { tipo := MontagemTipo.reto, valido := true } ↔ na = ns + 2 * nps.sum) ∧
       (validarMontagem (some ns) nps (some na) copies =
          { tipo := MontagemTipo.curvo, valido := true } ↔ na < ns + 2 * nps.sum)) :=
  fun ns na copies nps hlen =>
    montagemTri (ns + 2 * nps.sum) na _ (validar_two_plus ns na copies nps hlen)

/-- **C4 (counterexample).**  The claim's particular values are wrong on
the code: for `Ns=30, Np=[10,10]` the limit is `30 + 2·(10+10) = 70`, so
`Na=60` is classified `curvo` (the claim says straight at the limit) and
`Na=61` is also `curvo` (the claim says impossible above 60). -/
theorem c4_spec_example_false :
    validarMontagem (some 30) [10, 10] (some 60) 1 =
      { tipo := MontagemTipo.curvo, valido := true } ∧
    validarMontagem (some 30) [10, 10] (some 61) 1 =
      { tipo := MontagemTipo.curvo, valido := true } := by
  constructor
  · exact (c4_multi_planet_key 30 60 1 [10, 10] (by simp)).2.2.mpr
      (by norm_num [List.sum_cons, List.sum_nil])
  · exact (c4_multi_planet_key 30 61 1 [10, 10] (by simp)).2.2.mpr
      (by norm_num [List.sum_cons, List.sum_nil])

/-- **C4 (amended).**  For a stage with a sun, a chain of two or more
planets and a ring, with `L = Ns + 2·ΣNp`: the validator reports
`impossivel` exactly when `Na > L`, `reto` exactly when `Na = L`, and
`curvo` exactly when `Na < L`; for `(Ns=30, Np=[10,10])` the limit is
`L = 70`, giving `reto` at `Na=70`, `curvo` at `Na=55` and `impossivel`
at `Na=71`. -/
theorem c4_multi_planet_inequality :
    (∀ (ns na copies : ℚ) (nps : List ℚ), 2 ≤ nps.length →
      ((validarMontagem (some ns) nps (some na) copies =
          { tipo := MontagemTipo.impossivel, valido := false } ↔ ns + 2 * nps.sum < na) ∧
       (validarMontagem (some ns) nps (some na) copies =
          { tipo := MontagemTipo.reto, valido := true } ↔ na = ns + 2 * nps.sum) ∧
       (validarMontagem (some ns) nps (some na) copies =
          { tipo := MontagemTipo.curvo, valido := true } ↔ na < ns + 2 * nps.sum))) ∧
    validarMontagem (some 30) [10, 10] (some 70) 1 =
      { tipo := MontagemTipo.reto, valido := true } ∧
    validarMontagem (some 30) [10, 10] (some 55) 1 =
      { tipo := MontagemTipo.curvo, valido := true } ∧
    validarMontagem (some 30) [10, 10] (some 71) 1 =
      { tipo := MontagemTipo.impossivel, valido := false } := by
  have key := c4_multi_planet_key
  refine ⟨key, ?_, ?_, ?_⟩
  · exact (key 30 70 1 [10, 10] (by simp)).2.1.mpr
      (by norm_num [List.sum_cons, List.sum_nil])
  · exact (key 30 55 1 [10, 10] (by simp)).2.2.mpr
      (by norm_num [List.sum_cons, List.sum_nil])
  · exact (key 30 71 1 [10, 10] (by simp)).1.mpr
      (by norm_num [List.sum_cons, List.sum_nil])

/-- **C6 (amended).**  For a stage with no sun, a ring of `Na` teeth and a
non-empty planet chain whose ring-contact planet has `Zc` teeth, with the
clamped copy count `c`: for `c = 1` the stage is impossible exactly when
`|Na| ≤ Zc`; for `c > 1` it is impossible exactly when `sin(π/c) ≤ 1e-6`
(the source's degenerate-sine escape, reached for very large `c`) or
`|Na| < ⌈Zc·(1 + 1/sin(π/c))⌉`; in all other cases the stage is open and
valid. -/
theorem c6_no_sun_clearance (na planetCopies : ℚ) (nps : List ℚ) (c : ℤ) (Zc : ℚ)
    (hnp : nps ≠ [])
    (hc : c = max 1 (jsRoundQ (if planetCopies = 0 then 1 else planetCopies)))
    (hZc : Zc = |(nps.getLast?).getD 0|) :
    (c = 1 →
      ((validarMontagem none nps (some na) planetCopies =
          { tipo := MontagemTipo.impossivel, valido := false } ↔ |na| ≤ Zc) ∧
       (validarMontagem none nps (some na) planetCopies =
          { tipo := MontagemTipo.aberta, valido := true } ↔ Zc < |na|))) ∧
    (1 < c →
      ((validarMontagem none nps (some na) planetCopies =
          { tipo := MontagemTipo.impossivel, valido := false } ↔
          (Real.sin (Real.pi / (c : ℝ)) ≤ 1 / 1000000 ∨
           ((|na| : ℚ) : ℝ) <
             ((⌈(Zc : ℝ) * (1 + 1 / Real.sin (Real.pi / (c : ℝ)))⌉ : ℤ) : ℝ))) ∧
       (validarMontagem none nps (some na) planetCopies =
          { tipo := MontagemTipo.aberta, valido := true } ↔
          ¬(Real.sin (Real.pi / (c : ℝ)) ≤ 1 / 1000000 ∨
            ((|na| : ℚ) : ℝ) <
              ((⌈(Zc : ℝ) * (1 + 1 / Real.sin (Real.pi / (c : ℝ)))⌉ : ℤ) : ℝ))))) := by
  have hlen : 1 ≤ nps.length := List.length_pos.mpr hnp
  simp only [validarMontagem, semSolarStatus]
  rw [if_neg (by simp), if_pos hlen, ← hc, ← hZc]
  constructor
  · intro h1
    rw [if_pos (by omega : c ≤ 1)]
    by_cases hle : |na| ≤ Zc
    · rw [if_pos hle]
      exact ⟨iff_of_true rfl hle, iff_of_false (by simp) (not_lt.mpr hle)⟩
    · rw [if_neg hle]
      exact ⟨iff_of_false (by simp) hle, iff_of_true rfl (not_le.mp hle)⟩
  · intro h1
    rw [if_neg (by omega : ¬ c ≤ 1)]
    by_cases hs : Real.sin (Real.pi / (c : ℝ)) ≤ 1 / 1000000
    · rw [if_pos hs]
      exact ⟨iff_of_true rfl (Or.inl hs),
        iff_of_false (by simp) (fun hcon => hcon (Or.inl hs))⟩
    · rw [if_neg hs]
      by_cases hlt : ((|na| : ℚ) : ℝ) <
          ((⌈(Zc : ℝ) * (1 + 1 / Real.sin (Real.pi / (c : ℝ)))⌉ : ℤ) : ℝ)
      · rw [if_pos hlt]
        exact ⟨iff_of_true rfl (Or.inr hlt),
          iff_of_false (by simp) (fun hcon => hcon (Or.inr hlt))⟩
      · rw [if_neg hlt]
        refine ⟨iff_of_false (by simp) ?_, iff_of_true rfl ?_⟩ <;>
          exact fun hcon => hcon.elim hs hlt

/-- The sine of `π/3141593` is positive but at most `1e-6` (so the source's
degenerate-sine escape fires), yet large enough that the claimed ceiling
threshold stays below `10^7`. -/
theorem sin_pi_div_3141593_bounds :
    Real.sin (Real.pi / 3141593) ≤ 1 / 1000000 ∧
    1 / 9999999 ≤ Real.sin (Real.pi / 3141593) := by
  have hxpos : (0 : ℝ) < Real.pi / 3141593 := by positivity
  have hxlt : Real.pi / 3141593 < 1 / 1000000 := by
    have h1 : Real.pi / 3141593 < 3.141593 / 3141593 :=
      (div_lt_div_iff_of_pos_right (by norm_num)).mpr Real.pi_lt_d6
    have h2 : (3.141593 : ℝ) / 3141593 = 1 / 1000000 := by norm_num
    linarith
  have hxgt : (3.141592 : ℝ) / 3141593 < Real.pi / 3141593 :=
    (div_lt_div_iff_of_pos_right (by norm_num)).mpr Real.pi_gt_d6
  constructor
  · have hs := Real.sin_lt hxpos
    linarith
  · have hs := Real.sin_gt_sub_cube hxpos (by linarith [Real.pi_lt_d6])
    have hcube : (Real.pi / 3141593) ^ 3 < (1 / 1000000 : ℝ) ^ 3 :=
      pow_lt_pow_left₀ hxlt (le_of_lt hxpos) (by norm_num)
    nlinarith

/-- **C6 (counterexample).**  At `Na = 10^7`, `Np = [1]`, `copies = 3141593`
(so `c = 3141593` after clamping) the validator reports the stage
impossible, while the claim's criterion `|Na| < ⌈Zc·(1 + 1/sin(π/c))⌉` is
false there (the threshold is at most `10^7`), i.e. the claim, as stated,
says the stage is open and valid. -/
theorem c6_claim_false_at_many_copies :
    validarMontagem none [1] (some 10000000) 3141593 =
      { tipo := MontagemTipo.impossivel, valido := false } ∧
    ¬ ((10000000 : ℝ) <
        ((⌈(1 : ℝ) * (1 + 1 / Real.sin (Real.pi / 3141593))⌉ : ℤ) : ℝ)) := by
  have hcval : max 1 (jsRoundQ (if (3141593 : ℚ) = 0 then 1 else 3141593)) = (3141593 : ℤ) := by
    rw [if_neg (by norm_num)]
    have : jsRoundQ 3141593 = 3141593 := by
      unfold jsRoundQ
      rw [Int.floor_eq_iff]
      constructor <;> norm_num
    rw [this]
    norm_num
  have hsb := sin_pi_div_3141593_bounds
  have hspos : (0 : ℝ) < Real.sin (Real.pi / 3141593) := by
    have := hsb.2
    linarith [show (0:ℝ) < 1 / 9999999 by norm_num]
  constructor
  · have h := (c6_no_sun_clearance 10000000 3141593 [1] 3141593 1
      (by simp) (by rw [hcval]) (by simp)).2 (by norm_num)
    refine h.1.mpr (Or.inl ?_)
    have hc3 : ((3141593 : ℤ) : ℝ) = 3141593 := by norm_num
    rw [hc3]
    exact hsb.1
  · intro hcon
    have hle : (⌈(1 : ℝ) * (1 + 1 / Real.sin (Real.pi / 3141593))⌉ : ℤ) ≤ 10000000 := by
      rw [Int.ceil_le]
      have hinv : 1 / Real.sin (Real.pi / 3141593) ≤ 9999999 := by
        rw [div_le_iff₀ hspos]
        have := hsb.2
        nlinarith
      push_cast
      nlinarith
    have : ((⌈(1 : ℝ) * (1 + 1 / Real.sin (Real.pi / 3141593))⌉ : ℤ) : ℝ) ≤ 10000000 := by
      exact_mod_cast hle
    linarith

/-- **C6 (witness).**  With two copies (`sin(π/2) = 1`) the amended claim's
threshold for `Zc = 10` is `⌈10·2⌉ = 20`, so `Na = 19` is impossible. -/
theorem c6_witness :
    validarMontagem none [10] (some 19) 2 =
      { tipo := MontagemTipo.impossivel, valido := false } := by
  have hc : (2 : ℤ) = max 1 (jsRoundQ (if (2 : ℚ) = 0 then 1 else 2)) := by
    rw [if_neg (by norm_num)]
    have : jsRoundQ 2 = 2 := by
      unfold jsRoundQ
      rw [Int.floor_eq_iff]
      constructor <;> norm_num
    rw [this]
    norm_num
  have h := (c6_no_sun_clearance 19 2 [10] 2 10 (by simp) hc (by simp)).2 (by norm_num)
  refine h.1.mpr (Or.inr ?_)
  have hc2 : ((2 : ℤ) : ℝ) = 2 := by norm_num
  rw [hc2, Real.sin_pi_div_two]
  norm_num

/-- **C4 (witness).**  An instantiation of the general rule: `Ns = 5`,
`Np = [3, 4]`, `Na = 19 = 5 + 2·(3+4)` is a valid straight carrier. -/
theorem c4_witness :
    validarMontagem (some 5) [3, 4] (some 19) 2 =
      { tipo := MontagemTipo.reto, valido := true } :=
  (c4_multi_planet_inequality.1 5 19 2 [3, 4] (by simp)).2.1.mpr
    (by norm_num [List.sum_cons, List.sum_nil])

/-- **C8.**  The claimed round-trip invariant fails on the code: on
`c8Model` (consistent by the code's own rank computation) the solver
returns a velocity map whose `x` entry is `1/(10^16 + 1)` instead of the
exact solution `1` — the `1e-15` pivot threshold of `solveGaussian`
discards the tiny leading column of the normal equations — and re-solving
with the returned velocities fed back as `known` constraints yields the
overdetermined variant, not the same map. -/
theorem c8_roundtrip_bug :
    rankOf (augment ((stackedRows c8Model).map Row.A) ((stackedRows c8Model).map Row.b)) =
      rankOf ((stackedRows c8Model).map Row.A) ∧
    isSolvedOutcome (solveGearSystem c8Model) = true ∧
    solvedVelocity (solveGearSystem c8Model) "x" = some (1 / 10000000000000001) ∧
    roundTripHolds c8Model = false := by
  have h1 : solveGearSystem c8Model =
      Except.ok (SolveOutcome.solved ["x", "y", "c"] c8Vels []) := by
    decide!
  have h2 : solveGearSystem (extendWithKnowns c8Model c8Vels) =
      Except.ok (SolveOutcome.over 3) := by
    decide!
  refine ⟨by decide!, ?_, ?_, ?_⟩
  · rw [h1]
    rfl
  · rw [h1]
    decide!
  · simp only [roundTripHolds, h1, h2]

/-! ### Solver structure lemmas -/

/-- `updRow` preserves the row length. -/
theorem updRow_length (row : List ℚ) (idx : Option ℕ) (d : ℚ) :
    (updRow row idx d).length = row.length := by
  cases idx <;> simp [updRow]

/-- `setRow` preserves the row length. -/
theorem setRow_length (row : List ℚ) (idx : Option ℕ) (x : ℚ) :
    (setRow row idx x).length = row.length := by
  cases idx <;> simp [setRow]

/-- A successfully built mesh row has one entry per variable. -/
theorem meshRow_length (model : Model) (vs : List String) (m : Mesh) (r : Row)
    (h : meshRow model vs m = Except.ok r) : r.A.length = vs.length := by
  unfold meshRow at h
  split at h
  · exact absurd h (by simp)
  · split at h
    · exact absurd h (by simp)
    · rw [Except.ok.injEq] at h
      subst h
      simp [updRow_length, setRow_length]

/-- A constraint row has one entry per variable. -/
theorem constraintRow_length (vs : List String) (c : Constraint) :
    (constraintRow vs c).A.length = vs.length := by
  unfold constraintRow
  rcases c with ⟨ct, v, a, b, val⟩
  cases ct <;> simp [updRow_length, setRow_length]

/-- Every successfully built mesh row list has rows of full width. -/
theorem meshRows_length (model : Model) (vs : List String) :
    ∀ (ms : List Mesh) (rows : List Row), meshRows model vs ms = Except.ok rows →
      ∀ r ∈ rows, r.A.length = vs.length := by
  intro ms
  induction ms with
  | nil =>
    intro rows h r hr
    simp only [meshRows] at h
    rw [Except.ok.injEq] at h
    subst h
    simp at hr
  | cons m ms ih =>
    intro rows h r hr
    simp only [meshRows] at h
    split at h
    · exact absurd h (by simp)
    · split at h
      · exact absurd h (by simp)
      · rw [Except.ok.injEq] at h
        subst h
        rcases List.mem_cons.mp hr with hhead | htail
        · subst hhead
          exact meshRow_length model vs m r (by assumption)
        · exact ih _ (by assumption) r htail

/-- Every stacked row of a model has one entry per distinct variable. -/
theorem buildRows_length (model : Model) (rows : List Row)
    (h : buildRows model = Except.ok rows) :
    ∀ r ∈ rows, r.A.length = (buildVars model).length := by
  intro r hr
  unfold buildRows at h
  split at h
  · exact absurd h (by simp)
  · rw [Except.ok.injEq] at h
    subst h
    rcases List.mem_append.mp hr with hmesh | hcons
    · exact meshRows_length model (buildVars model) model.meshes _ (by assumption) r hmesh
    · obtain ⟨c, _, rfl⟩ := List.mem_map.mp hcons
      exact constraintRow_length _ c

/-- The first projection of the velocity map is the variable list. -/
theorem mapIdx_pair_fst {α β : Type} (l : List α) (g : ℕ → α → β) :
    (l.mapIdx (fun i v => (v, g i v))).map Prod.fst = l := by
  apply List.ext_getElem
  · simp
  · intro i h1 h2
    simp

/-- When all meshes resolve, the mesh rows build successfully, one row per
mesh. -/
theorem meshRows_ok (model : Model) (vs : List String) :
    ∀ ms : List Mesh, (∀ m ∈ ms, meshResolvable model m = true) →
      ∃ rows, meshRows model vs ms = Except.ok rows ∧ rows.length = ms.length := by
  intro ms
  induction ms with
  | nil => exact fun _ => ⟨[], rfl, rfl⟩
  | cons m ms ih =>
    intro hall
    have hm := hall m (List.mem_cons_self m ms)
    have hrow : ∃ r, meshRow model vs m = Except.ok r := by
      unfold meshRow
      unfold meshResolvable at hm
      rcases hi : lookupN model m.i with ei | Ni
      · rw [hi] at hm
        simp [isOkE] at hm
      · rcases hj : lookupN model m.j with ej | Nj
        · rw [hi, hj] at hm
          simp [isOkE] at hm
        · exact ⟨_, rfl⟩
    obtain ⟨r, hr⟩ := hrow
    obtain ⟨rest, hrest, hlen⟩ := ih (fun m' hm' => hall m' (List.mem_cons_of_mem m hm'))
    refine ⟨r :: rest, ?_, by simp [hlen]⟩
    simp only [meshRows, hr, hrest]

/-- When some mesh fails to resolve, the mesh rows raise. -/
theorem meshRows_error (model : Model) (vs : List String) :
    ∀ ms : List Mesh, (∃ m ∈ ms, meshResolvable model m = false) →
      ∃ e, meshRows model vs ms = Except.error e := by
  intro ms
  induction ms with
  | nil => rintro ⟨m, hm, _⟩; simp at hm
  | cons m ms ih =>
    rintro ⟨m', hm', hfail⟩
    rcases hrow : meshRow model vs m with e | r
    · exact ⟨e, by simp only [meshRows, hrow]⟩
    · have hmok : meshResolvable model m = true := by
        unfold meshRow at hrow
        rcases hi : lookupN model m.i with ei | Ni
        · simp only [hi] at hrow
          exact Except.noConfusion hrow
        · rcases hj : lookupN model m.j with ej | Nj
          · simp only [hi, hj] at hrow
            exact Except.noConfusion hrow
          · unfold meshResolvable
            rw [hi, hj]
            rfl
      rcases List.mem_cons.mp hm' with hh | ht
      · subst hh
        rw [hmok] at hfail
        exact absurd hfail (by simp)
      · obtain ⟨e, he⟩ := ih ⟨m', ht, hfail⟩
        exact ⟨e, by simp only [meshRows, hrow, he]⟩

/-- With a non-empty first row of non-zero width, `leastSquares` succeeds. -/
theorem leastSquares_ok (b : List ℚ) (r0 : List ℚ) (A' : List (List ℚ))
    (h0 : r0.length ≠ 0) :
    ∃ sol, leastSquares (r0 :: A') b = Except.ok sol := by
  unfold leastSquares
  have htr : transpose (r0 :: A') =
      (List.range r0.length).map (fun j => (r0 :: A').map (fun row => row.getD j 0)) := rfl
  have hne : (List.range r0.length).map
      (fun j => (r0 :: A').map (fun row => row.getD j 0)) ≠ [] := by
    simp [List.map_eq_nil_iff, List.range_eq_nil, h0]
  obtain ⟨hd, tl, heq⟩ := List.exists_cons_of_ne_nil hne
  rw [htr, heq]
  exact ⟨_, rfl⟩

/-! ### Claim C2 -/

/-- **C2 (amended).**  For every model on which `solveGearSystem` returns
at all, after stacking the emitted rows into `A·ω = b` over the `n`
distinct velocity variables: it returns the overdetermined variant with
`conflictingConstraints = max(1, rank([A|b]) − rank(A), m − n)` exactly when
`rank([A|b]) > rank(A)`; otherwise the underdetermined variant with
`missingConstraints = n − rank(A)` exactly when `rank(A) < n`; otherwise
the solved variant with one velocity per variable (ranks computed by the
code's own `rankOf`, Gaussian elimination with partial pivoting at
tolerance `1e-9`).  The claim's unrestricted quantifier fails on the
models that stack no row at all: there the code throws instead of
returning the underdetermined variant (see the counterexample). -/
theorem c2_rank_classification (model : Model) (rows : List Row) (r : SolveOutcome)
    (hrows : buildRows model = Except.ok rows)
    (hr : solveGearSystem model = Except.ok r) :
    (rankOf (rows.map Row.A) < rankOf (augment (rows.map Row.A) (rows.map Row.b)) →
      r = SolveOutcome.over (max 1 (max
        ((rankOf (augment (rows.map Row.A) (rows.map Row.b)) : ℤ) -
          (rankOf (rows.map Row.A) : ℤ))
        ((rows.length : ℤ) - ((buildVars model).length : ℤ))))) ∧
    (rankOf (augment (rows.map Row.A) (rows.map Row.b)) ≤ rankOf (rows.map Row.A) →
      rankOf (rows.map Row.A) < (buildVars model).length →
      r = SolveOutcome.under (buildVars model)
        (((buildVars model).length : ℤ) - (rankOf (rows.map Row.A) : ℤ))) ∧
    (rankOf (augment (rows.map Row.A) (rows.map Row.b)) ≤ rankOf (rows.map Row.A) →
      (buildVars model).length ≤ rankOf (rows.map Row.A) →
      ∃ vels rats, r = SolveOutcome.solved (buildVars model) vels rats ∧
        vels.map Prod.fst = buildVars model) := by
  unfold solveGearSystem at hr
  rw [hrows] at hr
  dsimp only at hr
  rcases hA : rows.map Row.A with _ | ⟨r0, A'⟩
  · rw [hA] at hr
    exact absurd hr (by simp)
  · have hr0len : r0.length = (buildVars model).length := by
      have hmem : r0 ∈ rows.map Row.A := by rw [hA]; exact List.mem_cons_self _ _
      obtain ⟨row0, hrow0, hfst⟩ := List.mem_map.mp hmem
      rw [← hfst]
      exact buildRows_length model rows hrows row0 hrow0
    rw [hA] at hr
    dsimp only at hr
    rw [hr0len] at hr
    split at hr
    · rw [Except.ok.injEq] at hr
      subst hr
      refine ⟨fun _ => rfl, fun hle _ => ?_, fun hle _ => ?_⟩ <;>
        · exfalso
          omega
    · split at hr
      · rw [Except.ok.injEq] at hr
        subst hr
        refine ⟨fun hlt => ?_, fun _ hrk => ?_, fun _ hge => ?_⟩
        · exfalso
          omega
        · have hmax : max 0 (((buildVars model).length : ℤ) -
              (rankOf (r0 :: A') : ℤ)) =
              ((buildVars model).length : ℤ) - (rankOf (r0 :: A') : ℤ) := by
            omega
          rw [hmax]
        · exfalso
          omega
      · split at hr
        · exact absurd hr (by simp)
        · rw [Except.ok.injEq] at hr
          subst hr
          refine ⟨fun hlt => ?_, fun _ hrk => ?_, fun _ _ => ?_⟩
          · exfalso
            omega
          · exfalso
            omega
          · exact ⟨_, _, rfl, mapIdx_pair_fst _ _⟩

/-- **C2 (witness).**  Two conflicting `known` constraints on one variable:
the stacked system has `rank(A) = 1 < 2 = rank([A|b])`, and the theorem
yields the overdetermined variant with one conflicting constraint. -/
theorem c2_witness :
    SolveOutcome.over 1 = SolveOutcome.over (max 1 (max
      ((rankOf (augment (([⟨[1], 1⟩, ⟨[1], 2⟩] : List Row).map Row.A)
          (([⟨[1], 1⟩, ⟨[1], 2⟩] : List Row).map Row.b)) : ℤ) -
        (rankOf (([⟨[1], 1⟩, ⟨[1], 2⟩] : List Row).map Row.A) : ℤ))
      ((([⟨[1], 1⟩, ⟨[1], 2⟩] : List Row).length : ℤ) -
        ((buildVars c2OverModel).length : ℤ)))) := by
  have h := c2_rank_classification c2OverModel [⟨[1], 1⟩, ⟨[1], 2⟩]
    (SolveOutcome.over 1) (by decide!) (by decide!)
  exact h.1 (by decide!)

/-- **C2 (counterexample).**  A model with one velocity variable and no
meshes or constraints stacks zero rows; the claim's unrestricted
quantifier then demands the underdetermined variant with
`missingConstraints = 1`, but the code throws the `TypeError` of the
`A[0].length` read instead of returning. -/
theorem c2_throws_on_empty_rows :
    buildVars c2NoRowsModel = ["x"] ∧
    buildRows c2NoRowsModel = Except.ok [] ∧
    solveGearSystem c2NoRowsModel = Except.error
      "TypeError: Cannot read properties of undefined (reading 'length')" := by
  decide!

/-! ### Claim C7 -/

/-- **C7 (amended).**  `solveGearSystem` raises a descriptive error when
some mesh's engaged member (`i` or `j`) matches no element or matches one
without a numeric tooth count; and whenever all engaged members resolve, at
least one row is emitted and at least one velocity variable exists, it
returns normally — under- and over-determination are returned as result
variants, never thrown.  (A mesh `carrier` with no matching element does
not raise, and a model emitting no rows at all throws a `TypeError`; see
the counterexample.) -/
theorem c7_error_behaviour :
    (∀ model : Model, (∃ m ∈ model.meshes, meshResolvable model m = false) →
      isOkE (solveGearSystem model) = false) ∧
    (∀ model : Model, (∀ m ∈ model.meshes, meshResolvable model m = true) →
      model.meshes.length + ((model.constraints).getD []).length ≠ 0 →
      buildVars model ≠ [] →
      isOkE (solveGearSystem model) = true) := by
  constructor
  · intro model hex
    obtain ⟨e, he⟩ := meshRows_error model (buildVars model) model.meshes hex
    have hbuild : buildRows model = Except.error e := by
      unfold buildRows
      rw [he]
    unfold solveGearSystem
    rw [hbuild]
    rfl
  · intro model hall hlen hvars
    obtain ⟨mrows, hm, hmlen⟩ := meshRows_ok model (buildVars model) model.meshes hall
    have hbuild : buildRows model = Except.ok
        (mrows ++ ((model.constraints.getD []).map (constraintRow (buildVars model)))) := by
      unfold buildRows
      rw [hm]
    have hrowlen : (mrows ++ ((model.constraints.getD []).map
        (constraintRow (buildVars model)))).length ≠ 0 := by
      simp only [List.length_append, List.length_map, hmlen]
      exact hlen
    unfold solveGearSystem
    rw [hbuild]
    dsimp only
    rcases hA : (mrows ++ ((model.constraints.getD []).map
        (constraintRow (buildVars model)))).map Row.A with _ | ⟨r0, A'⟩
    · exfalso
      apply hrowlen
      simpa using congrArg List.length hA
    · dsimp only
      have hr0len : r0.length = (buildVars model).length := by
        have hmem : r0 ∈ (mrows ++ ((model.constraints.getD []).map
            (constraintRow (buildVars model)))).map Row.A := by
          rw [hA]; exact List.mem_cons_self _ _
        obtain ⟨row0, hrow0, hfst⟩ := List.mem_map.mp hmem
        rw [← hfst]
        exact buildRows_length model _ hbuild row0 hrow0
      split
      · rfl
      · split
        · rfl
        · obtain ⟨sol, hsol⟩ := leastSquares_ok
            ((mrows ++ ((model.constraints.getD []).map
              (constraintRow (buildVars model)))).map Row.b) r0 A'
            (by rw [hr0len]; simpa using hvars)
          rw [hsol]
          rfl

/-- **C7 (counterexample).**  A mesh whose `carrier` variable matches no
element (and no carrier entry) does not raise: the solver silently drops
the carrier coefficients and returns the underdetermined variant, while
the claim says a mesh referencing a carrier with no matching element
raises a descriptive error. -/
theorem c7_carrier_not_checked :
    (∀ e ∈ c7CarrierModel.elements, ¬ e.omega = "c") ∧
    (∀ cr ∈ (c7CarrierModel.carriers).getD [], ¬ cr.omega = "c") ∧
    (∃ m ∈ c7CarrierModel.meshes, m.carrier = "c") ∧
    solveGearSystem c7CarrierModel = Except.ok (SolveOutcome.under ["x", "y"] 1) := by
  decide!

/-- **C7 (witness).**  A dangling engaged member raises; the well-formed
claim C1 model returns normally. -/
theorem c7_witness :
    isOkE (solveGearSystem c7DanglingMeshModel) = false ∧
    isOkE (solveGearSystem c1Model) = true := by
  constructor
  · apply c7_error_behaviour.1
    refine ⟨Mesh.mk "x" "z" "c" (some MeshType.external) none, ?_, ?_⟩ <;> decide!
  · exact c7_error_behaviour.2 c1Model (by decide!) (by decide!) (by decide!)

/-! ### Phasing support lemmas -/

/-- `TAU` is positive. -/
theorem TAU_pos : (0 : ℝ) < TAU := by
  unfold TAU
  positivity

/-- `mod2pi` always lands in `[0, TAU)`. -/
theorem mod2pi_mem (x : ℝ) : 0 ≤ mod2pi x ∧ mod2pi x < TAU := by
  have ht := TAU_pos
  simp only [mod2pi, jsFmod, jsTrunc]
  by_cases hx : 0 ≤ x / TAU
  · rw [if_pos hx]
    have h1 : ((⌊x / TAU⌋ : ℤ) : ℝ) ≤ x / TAU := Int.floor_le _
    have h2 : x / TAU < ((⌊x / TAU⌋ : ℤ) : ℝ) + 1 := Int.lt_floor_add_one _
    have hxe : TAU * (x / TAU) = x := by field_simp
    have h1a : TAU * ((⌊x / TAU⌋ : ℤ) : ℝ) ≤ x := by
      calc TAU * ((⌊x / TAU⌋ : ℤ) : ℝ) ≤ TAU * (x / TAU) :=
            mul_le_mul_of_nonneg_left h1 ht.le
        _ = x := hxe
    have h2a : x < TAU * ((⌊x / TAU⌋ : ℤ) : ℝ) + TAU := by
      have hmul := mul_lt_mul_of_pos_left h2 ht
      rw [mul_add, mul_one] at hmul
      calc x = TAU * (x / TAU) := hxe.symm
        _ < _ := hmul
    rw [if_neg (by linarith)]
    constructor <;> linarith
  · rw [if_neg hx]
    have h1 : x / TAU ≤ ((⌈x / TAU⌉ : ℤ) : ℝ) := Int.le_ceil _
    have h2 : ((⌈x / TAU⌉ : ℤ) : ℝ) < x / TAU + 1 := Int.ceil_lt_add_one _
    have hxe : TAU * (x / TAU) = x := by field_simp
    have h1a : x ≤ TAU * ((⌈x / TAU⌉ : ℤ) : ℝ) := by
      calc x = TAU * (x / TAU) := hxe.symm
        _ ≤ TAU * ((⌈x / TAU⌉ : ℤ) : ℝ) := mul_le_mul_of_nonneg_left h1 ht.le
    have h2a : TAU * ((⌈x / TAU⌉ : ℤ) : ℝ) < x + TAU := by
      have hmul := mul_lt_mul_of_pos_left h2 ht
      rw [mul_add, mul_one] at hmul
      calc TAU * ((⌈x / TAU⌉ : ℤ) : ℝ) < TAU * (x / TAU) + TAU := hmul
        _ = x + TAU := by rw [hxe]
    by_cases hneg : x - TAU * ((⌈x / TAU⌉ : ℤ) : ℝ) < 0
    · rw [if_pos hneg]
      constructor <;> linarith
    · rw [if_neg hneg]
      constructor <;> linarith

/-- `mod2pi` fixes angles already in `[0, TAU)`. -/
theorem mod2pi_eq_self {x : ℝ} (h0 : 0 ≤ x) (h1 : x < TAU) : mod2pi x = x := by
  have ht := TAU_pos
  have hy0 : 0 ≤ x / TAU := div_nonneg h0 ht.le
  have hy1 : x / TAU < 1 := (div_lt_one ht).mpr h1
  have hf : ⌊x / TAU⌋ = 0 := Int.floor_eq_zero_iff.mpr ⟨hy0, hy1⟩
  simp only [mod2pi, jsFmod, jsTrunc, if_pos hy0, hf, Int.cast_zero, mul_zero, sub_zero]
  rw [if_neg (not_lt.mpr h0)]

/-- `mod2pi TAU = 0`. -/
theorem mod2pi_TAU : mod2pi TAU = 0 := by
  have ht := TAU_pos
  have hd : TAU / TAU = 1 := div_self ht.ne'
  simp only [mod2pi, jsFmod, jsTrunc, hd]
  rw [if_pos (by norm_num : (0:ℝ) ≤ 1)]
  norm_num

/-- `⌊q + 1/2⌋` is a nearest integer to `q` (ties broken upward). -/
theorem floor_half_nearest (q : ℚ) (t : ℤ) :
    |q - ((⌊q + 1 / 2⌋ : ℤ) : ℚ)| ≤ |q - (t : ℚ)| := by
  have h1 : ((⌊q + 1 / 2⌋ : ℤ) : ℚ) ≤ q + 1 / 2 := Int.floor_le _
  have h2 : q + 1 / 2 < ((⌊q + 1 / 2⌋ : ℤ) : ℚ) + 1 := Int.lt_floor_add_one _
  have habs : |q - ((⌊q + 1 / 2⌋ : ℤ) : ℚ)| ≤ 1 / 2 :=
    abs_le.mpr ⟨by linarith, by linarith⟩
  rcases lt_trichotomy t ⌊q + 1 / 2⌋ with ht | ht | ht
  · have ht' : (t : ℚ) + 1 ≤ ((⌊q + 1 / 2⌋ : ℤ) : ℚ) := by exact_mod_cast ht
    have hge : 1 / 2 ≤ q - (t : ℚ) := by linarith
    calc |q - ((⌊q + 1 / 2⌋ : ℤ) : ℚ)| ≤ 1 / 2 := habs
      _ ≤ q - (t : ℚ) := hge
      _ ≤ |q - (t : ℚ)| := le_abs_self _
  · rw [ht]
  · have ht' : ((⌊q + 1 / 2⌋ : ℤ) : ℚ) + 1 ≤ (t : ℚ) := by exact_mod_cast ht
    have hle : q - (t : ℚ) ≤ -(1 / 2) := by linarith
    calc |q - ((⌊q + 1 / 2⌋ : ℤ) : ℚ)| ≤ 1 / 2 := habs
      _ ≤ -(q - (t : ℚ)) := by linarith
      _ ≤ |q - (t : ℚ)| := neg_le_abs _

/-- The clamped copy count is at least one. -/
theorem armCopies_pos (Nraw : ℚ) : 1 ≤ armCopies Nraw := by
  unfold armCopies
  have h : (1 : ℤ) ≤ max 1 (min 5 (jsRoundQ (if Nraw = 0 then 1 else Nraw))) :=
    le_max_left _ _
  set z := max 1 (min 5 (jsRoundQ (if Nraw = 0 then 1 else Nraw))) with hz
  omega

/-- The `m`-th copy angle in the registration branch (sun and ring present,
`Z_eff ≠ 0`, more than one copy). -/
theorem armAngles_get (Nraw zs zr : ℚ) (pz : List ℚ) (m : ℕ)
    (hN : ¬ armCopies Nraw ≤ 1) (hZ : ¬ zEffOf zs zr pz = 0)
    (hm : m < armCopies Nraw) :
    (computeArmAngles Nraw (some zs) (some zr) pz).getD m 0 =
      mod2pi ((jsRound ((TAU * (m : ℝ) / ((armCopies Nraw : ℕ) : ℝ)) /
          (TAU / ((zEffOf zs zr pz : ℚ) : ℝ))) : ℝ) *
        (TAU / ((zEffOf zs zr pz : ℚ) : ℝ))) := by
  simp only [computeArmAngles, if_neg hN, if_neg hZ]
  rw [List.getD_eq_getElem?_getD, List.getElem?_map, List.getElem?_range hm]
  rfl

/-! ### Claim C5 -/

/-- **C5 (amended).**  With both sun and ring present: every copy angle lies
in `[0, TAU)`; one copy gives `[0]`; and whenever `Z_eff ≥ N` (the clamped
copy count), the `N` angles are pairwise distinct, each being an exact
multiple of the tick `TAU/Z_eff` that is nearest (ties rounded up) to its
ideal target `TAU·m/N`.  (The claim's original distinctness condition
`Z_eff ≠ 0` fails, see the counterexample; `Z_eff ≥ N` is the repaired
hypothesis, and the nearest multiple is taken after reduction into
`[0, TAU)`.) -/
theorem c5_copy_angles (Nraw zs zr : ℚ) (pz : List ℚ) :
    (∀ a ∈ computeArmAngles Nraw (some zs) (some zr) pz, 0 ≤ a ∧ a < TAU) ∧
    (armCopies Nraw = 1 → computeArmAngles Nraw (some zs) (some zr) pz = [0]) ∧
    (((armCopies Nraw : ℕ) : ℚ) ≤ zEffOf zs zr pz →
      (computeArmAngles Nraw (some zs) (some zr) pz).Pairwise (fun a b => a ≠ b) ∧
      (∀ m : ℕ, m < armCopies Nraw →
        (∃ k : ℤ, (computeArmAngles Nraw (some zs) (some zr) pz).getD m 0 =
            (k : ℝ) * (TAU / ((zEffOf zs zr pz : ℚ) : ℝ))) ∧
        (∀ t : ℤ,
          |(computeArmAngles Nraw (some zs) (some zr) pz).getD m 0 -
              TAU * (m : ℝ) / ((armCopies Nraw : ℕ) : ℝ)| ≤
            |(t : ℝ) * (TAU / ((zEffOf zs zr pz : ℚ) : ℝ)) -
              TAU * (m : ℝ) / ((armCopies Nraw : ℕ) : ℝ)|))) := by
  have ht := TAU_pos
  have hN1 := armCopies_pos Nraw
  refine ⟨?_, ?_, ?_⟩
  · intro a ha
    simp only [computeArmAngles] at ha
    by_cases hNle : armCopies Nraw ≤ 1
    · rw [if_pos hNle] at ha
      simp only [List.mem_singleton] at ha
      subst ha
      exact ⟨le_refl _, ht⟩
    · rw [if_neg hNle] at ha
      by_cases hZ : zEffOf zs zr pz = 0
      · rw [if_pos hZ] at ha
        obtain ⟨i, hi, rfl⟩ := List.mem_map.mp ha
        have hiN : (i : ℝ) < ((armCopies Nraw : ℕ) : ℝ) := by
          exact_mod_cast List.mem_range.mp hi
        have hNpos : (0 : ℝ) < ((armCopies Nraw : ℕ) : ℝ) := by
          exact_mod_cast Nat.lt_of_lt_of_le Nat.zero_lt_one hN1
        constructor
        · positivity
        · rw [div_lt_iff₀ hNpos]
          calc TAU * (i : ℝ) < TAU * ((armCopies Nraw : ℕ) : ℝ) :=
                mul_lt_mul_of_pos_left hiN ht
            _ = _ := by ring
      · rw [if_neg hZ] at ha
        obtain ⟨i, _, rfl⟩ := List.mem_map.mp ha
        exact mod2pi_mem _
  · intro hNeq
    simp only [computeArmAngles, hNeq]
    rw [if_pos (le_refl 1)]
  · intro hZN
    by_cases hNle : armCopies Nraw ≤ 1
    · have hNeq : armCopies Nraw = 1 := le_antisymm hNle hN1
      have hlist : computeArmAngles Nraw (some zs) (some zr) pz = [0] := by
        simp only [computeArmAngles, hNeq]
        rw [if_pos (le_refl 1)]
      refine ⟨by rw [hlist]; exact List.pairwise_singleton _ _, ?_⟩
      intro m hm
      have hm0 : m = 0 := by omega
      subst hm0
      rw [hlist]
      constructor
      · exact ⟨0, by simp⟩
      · intro t
        rw [hNeq]
        have hgd : ([(0 : ℝ)]).getD 0 0 = 0 := rfl
        rw [hgd]
        have htg : TAU * ((0 : ℕ) : ℝ) / ((1 : ℕ) : ℝ) = 0 := by norm_num
        rw [htg, sub_zero, sub_zero, abs_zero]
        exact abs_nonneg _
    · -- main registration branch
      have hZpos : (0 : ℚ) < zEffOf zs zr pz := by
        have hN2 : (2 : ℚ) ≤ ((armCopies Nraw : ℕ) : ℚ) := by
          exact_mod_cast (by omega : 2 ≤ armCopies Nraw)
        linarith
      have hZne : ¬ zEffOf zs zr pz = 0 := hZpos.ne'
      have hNQpos : (0 : ℚ) < ((armCopies Nraw : ℕ) : ℚ) := by
        exact_mod_cast Nat.lt_of_lt_of_le Nat.zero_lt_one hN1
      have hmono : StrictMono (fun m : ℕ =>
          ⌊((m : ℚ) * zEffOf zs zr pz / ((armCopies Nraw : ℕ) : ℚ)) + 1 / 2⌋) := by
        apply strictMono_nat_of_lt_succ
        intro m
        have hstep : ((m + 1 : ℕ) : ℚ) * zEffOf zs zr pz / ((armCopies Nraw : ℕ) : ℚ) =
            (m : ℚ) * zEffOf zs zr pz / ((armCopies Nraw : ℕ) : ℚ) +
              zEffOf zs zr pz / ((armCopies Nraw : ℕ) : ℚ) := by
          push_cast
          ring
        have hone : (1 : ℚ) ≤ zEffOf zs zr pz / ((armCopies Nraw : ℕ) : ℚ) :=
          (one_le_div hNQpos).mpr hZN
        calc ⌊((m : ℚ) * zEffOf zs zr pz / ((armCopies Nraw : ℕ) : ℚ)) + 1 / 2⌋
            < ⌊((m : ℚ) * zEffOf zs zr pz / ((armCopies Nraw : ℕ) : ℚ)) + 1 / 2⌋ + 1 :=
              lt_add_one _
          _ = ⌊((m : ℚ) * zEffOf zs zr pz / ((armCopies Nraw : ℕ) : ℚ)) + 1 / 2 + 1⌋ :=
              (Int.floor_add_one _).symm
          _ ≤ _ := by
              apply Int.floor_le_floor
              rw [hstep]
              linarith
      have hbody : ∀ m : ℕ, m < armCopies Nraw →
          mod2pi ((jsRound ((TAU * (m : ℝ) / ((armCopies Nraw : ℕ) : ℝ)) /
              (TAU / ((zEffOf zs zr pz : ℚ) : ℝ))) : ℝ) *
            (TAU / ((zEffOf zs zr pz : ℚ) : ℝ))) =
          ((⌊((m : ℚ) * zEffOf zs zr pz / ((armCopies Nraw : ℕ) : ℚ)) + 1 / 2⌋ : ℤ) : ℝ) *
            (TAU / ((zEffOf zs zr pz : ℚ) : ℝ)) := by
        intro m hm
        have hZRpos : (0 : ℝ) < ((zEffOf zs zr pz : ℚ) : ℝ) := by exact_mod_cast hZpos
        have hNRpos : (0 : ℝ) < ((armCopies Nraw : ℕ) : ℝ) := by exact_mod_cast hNQpos
        have harg : (TAU * (m : ℝ) / ((armCopies Nraw : ℕ) : ℝ)) /
            (TAU / ((zEffOf zs zr pz : ℚ) : ℝ)) =
            (((m : ℚ) * zEffOf zs zr pz / ((armCopies Nraw : ℕ) : ℚ) : ℚ) : ℝ) := by
          push_cast
          field_simp
          ring
        have hround : jsRound ((((m : ℚ) * zEffOf zs zr pz /
            ((armCopies Nraw : ℕ) : ℚ) : ℚ) : ℝ)) =
            ⌊((m : ℚ) * zEffOf zs zr pz / ((armCopies Nraw : ℕ) : ℚ)) + 1 / 2⌋ := by
          unfold jsRound
          have hc : (((m : ℚ) * zEffOf zs zr pz / ((armCopies Nraw : ℕ) : ℚ) : ℚ) : ℝ) +
              1 / 2 =
              ((((m : ℚ) * zEffOf zs zr pz / ((armCopies Nraw : ℕ) : ℚ)) + 1 / 2 : ℚ) : ℝ) := by
            push_cast
            ring
          rw [hc, Rat.floor_cast]
        rw [harg, hround]
        set q : ℚ := (m : ℚ) * zEffOf zs zr pz / ((armCopies Nraw : ℕ) : ℚ) with hq
        have hq0 : 0 ≤ q := by
          apply div_nonneg (mul_nonneg (by positivity) hZpos.le) hNQpos.le
        have hf0 : 0 ≤ ⌊q + 1 / 2⌋ := Int.floor_nonneg.mpr (by linarith)
        have hfZ : ((⌊q + 1 / 2⌋ : ℤ) : ℚ) < zEffOf zs zr pz := by
          have hfle : ((⌊q + 1 / 2⌋ : ℤ) : ℚ) ≤ q + 1 / 2 := Int.floor_le _
          have hmN : (m : ℚ) + 1 ≤ ((armCopies Nraw : ℕ) : ℚ) := by
            exact_mod_cast hm
          have hN2 : (2 : ℚ) ≤ ((armCopies Nraw : ℕ) : ℚ) := by
            exact_mod_cast (by omega : 2 ≤ armCopies Nraw)
          have hZub : q < zEffOf zs zr pz - 1 / 2 := by
            rw [hq, div_lt_iff₀ hNQpos]
            have hone : (1 : ℚ) * zEffOf zs zr pz ≤
                (((armCopies Nraw : ℕ) : ℚ) - (m : ℚ)) * zEffOf zs zr pz :=
              mul_le_mul_of_nonneg_right (by linarith) hZpos.le
            nlinarith
          linarith
        have hθpos : (0 : ℝ) < TAU / ((zEffOf zs zr pz : ℚ) : ℝ) := by positivity
        have hval0 : (0 : ℝ) ≤ ((⌊q + 1 / 2⌋ : ℤ) : ℝ) * (TAU / ((zEffOf zs zr pz : ℚ) : ℝ)) := by
          apply mul_nonneg _ hθpos.le
          exact_mod_cast hf0
        have hvalT : ((⌊q + 1 / 2⌋ : ℤ) : ℝ) * (TAU / ((zEffOf zs zr pz : ℚ) : ℝ)) < TAU := by
          have hlt : ((⌊q + 1 / 2⌋ : ℤ) : ℝ) < ((zEffOf zs zr pz : ℚ) : ℝ) := by
            exact_mod_cast hfZ
          calc ((⌊q + 1 / 2⌋ : ℤ) : ℝ) * (TAU / ((zEffOf zs zr pz : ℚ) : ℝ))
              < ((zEffOf zs zr pz : ℚ) : ℝ) * (TAU / ((zEffOf zs zr pz : ℚ) : ℝ)) :=
                mul_lt_mul_of_pos_right hlt hθpos
            _ = TAU := by
                field_simp
        exact mod2pi_eq_self hval0 hvalT
      have hZRpos : (0 : ℝ) < ((zEffOf zs zr pz : ℚ) : ℝ) := by exact_mod_cast hZpos
      have hNRpos : (0 : ℝ) < ((armCopies Nraw : ℕ) : ℝ) := by exact_mod_cast hNQpos
      have hθpos : (0 : ℝ) < TAU / ((zEffOf zs zr pz : ℚ) : ℝ) := by positivity
      constructor
      · simp only [computeArmAngles, if_neg hNle, if_neg hZne]
        rw [List.pairwise_map]
        apply List.Pairwise.imp_of_mem ?_ (List.pairwise_lt_range _)
        intro a b ha hb hab
        have haN := List.mem_range.mp ha
        have hbN := List.mem_range.mp hb
        rw [hbody a haN, hbody b hbN]
        have hflt := hmono hab
        have : ((⌊((a : ℚ) * zEffOf zs zr pz / ((armCopies Nraw : ℕ) : ℚ)) + 1 / 2⌋ : ℤ) : ℝ) <
            ((⌊((b : ℚ) * zEffOf zs zr pz / ((armCopies Nraw : ℕ) : ℚ)) + 1 / 2⌋ : ℤ) : ℝ) := by
          exact_mod_cast hflt
        exact ne_of_lt (mul_lt_mul_of_pos_right this hθpos)
      · intro m hm
        have hget := armAngles_get Nraw zs zr pz m hNle hZne hm
        rw [hget, hbody m hm]
        constructor
        · exact ⟨_, rfl⟩
        · intro t
          set q : ℚ := (m : ℚ) * zEffOf zs zr pz / ((armCopies Nraw : ℕ) : ℚ) with hq
          have htarget : ((q : ℚ) : ℝ) * (TAU / ((zEffOf zs zr pz : ℚ) : ℝ)) =
              TAU * (m : ℝ) / ((armCopies Nraw : ℕ) : ℝ) := by
            rw [hq]
            push_cast
            field_simp
            ring
          rw [← htarget]
          have hfact : ∀ s : ℝ,
              s * (TAU / ((zEffOf zs zr pz : ℚ) : ℝ)) -
                ((q : ℚ) : ℝ) * (TAU / ((zEffOf zs zr pz : ℚ) : ℝ)) =
              (s - ((q : ℚ) : ℝ)) * (TAU / ((zEffOf zs zr pz : ℚ) : ℝ)) := by
            intro s
            ring
          rw [hfact, hfact, abs_mul, abs_mul, abs_of_pos hθpos]
          apply mul_le_mul_of_nonneg_right _ hθpos.le
          have hcast : ∀ z : ℤ, |((z : ℝ)) - ((q : ℚ) : ℝ)| = ((|q - (z : ℚ)| : ℚ) : ℝ) := by
            intro z
            rw [abs_sub_comm, Rat.cast_abs]
            congr 1
            push_cast
            ring
          rw [hcast, hcast]
          exact_mod_cast floor_half_nearest q t

/-- **C5 (counterexample).**  At `Zs = 20`, `Zr = 21`, a two-planet chain
and three copies, `Z_eff = |20 − 21| = 1 ≠ 0` but all three copy angles
collapse to `0`: the claimed pairwise distinctness for `Z_eff ≠ 0` is
false. -/
theorem c5_claim_false_distinctness :
    zEffOf 20 21 [10, 10] ≠ 0 ∧
    ¬ (computeArmAngles 3 (some 20) (some 21) [10, 10]).Pairwise
        (fun a b => a ≠ b) := by
  have ht := TAU_pos
  have hz : zEffOf 20 21 [10, 10] = 1 := by
    unfold zEffOf dFactor
    norm_num
  have harm : armCopies 3 = 3 := by
    unfold armCopies jsRoundQ
    have hfl : ⌊(3 : ℚ) + 1 / 2⌋ = 3 := by
      rw [Int.floor_eq_iff] <;> norm_num
    rw [if_neg (by norm_num)]
    rw [hfl]
    rfl
  have hlist : computeArmAngles 3 (some 20) (some 21) [10, 10] = [0, 0, 0] := by
    simp only [computeArmAngles, harm, hz]
    rw [if_neg (by norm_num), if_neg (by norm_num)]
    have hrange : List.range 3 = [0, 1, 2] := rfl
    rw [hrange]
    simp only [List.map_cons, List.map_nil]
    have hcast1 : ((1 : ℚ) : ℝ) = 1 := by norm_num
    have hdiv : TAU / ((1 : ℚ) : ℝ) = TAU := by rw [hcast1, div_one]
    have h0 : mod2pi ((jsRound ((TAU * ((0 : ℕ) : ℝ) / ((3 : ℕ) : ℝ)) / (TAU / ((1 : ℚ) : ℝ))) : ℝ) *
        (TAU / ((1 : ℚ) : ℝ))) = 0 := by
      rw [hdiv]
      have harg : TAU * ((0 : ℕ) : ℝ) / ((3 : ℕ) : ℝ) / TAU = 0 := by
        push_cast
        field_simp
      rw [harg]
      have hr : jsRound (0 : ℝ) = 0 := by
        unfold jsRound
        rw [Int.floor_eq_iff] <;> norm_num
      rw [hr]
      push_cast
      rw [zero_mul]
      exact mod2pi_eq_self (le_refl 0) ht
    have h1 : mod2pi ((jsRound ((TAU * ((1 : ℕ) : ℝ) / ((3 : ℕ) : ℝ)) / (TAU / ((1 : ℚ) : ℝ))) : ℝ) *
        (TAU / ((1 : ℚ) : ℝ))) = 0 := by
      rw [hdiv]
      have harg : TAU * ((1 : ℕ) : ℝ) / ((3 : ℕ) : ℝ) / TAU = 1 / 3 := by
        push_cast
        field_simp
        ring
      rw [harg]
      have hr : jsRound ((1 : ℝ) / 3) = 0 := by
        unfold jsRound
        rw [Int.floor_eq_iff] <;> norm_num
      rw [hr]
      push_cast
      rw [zero_mul]
      exact mod2pi_eq_self (le_refl 0) ht
    have h2 : mod2pi ((jsRound ((TAU * ((2 : ℕ) : ℝ) / ((3 : ℕ) : ℝ)) / (TAU / ((1 : ℚ) : ℝ))) : ℝ) *
        (TAU / ((1 : ℚ) : ℝ))) = 0 := by
      rw [hdiv]
      have harg : TAU * ((2 : ℕ) : ℝ) / ((3 : ℕ) : ℝ) / TAU = 2 / 3 := by
        push_cast
        field_simp
        ring
      rw [harg]
      have hr : jsRound ((2 : ℝ) / 3) = 1 := by
        unfold jsRound
        rw [Int.floor_eq_iff] <;> norm_num
      rw [hr]
      push_cast
      rw [one_mul]
      exact mod2pi_TAU
    rw [h0, h1, h2]
  refine ⟨by rw [hz]; norm_num, ?_⟩
  rw [hlist]
  intro hpw
  rcases hpw with _ | ⟨hrel, _⟩
  exact (hrel 0 (by simp)) rfl

/-- **C5 (witness).**  For `Zs = 20, Zr = 40`, one planet and three copies
(`Z_eff = 60 ≥ 3`), the three copy angles are pairwise distinct. -/
theorem c5_witness :
    (computeArmAngles 3 (some 20) (some 40) [12]).Pairwise (fun a b => a ≠ b) := by
  have h := (c5_copy_angles 3 20 40 [12]).2.2 (by decide!)
  exact h.1

/-! ### Claim C9 -/

/-- Normalising the planet positions preserves their number. -/
theorem normPositionsOf_length (positions : List (ℝ × ℝ)) :
    (normPositionsOf positions).length = positions.length := by
  rcases positions with _ | ⟨p, rest⟩
  · rfl
  · obtain ⟨x0, y0⟩ := p
    simp [normPositionsOf]

/-- The only error a planet-phase iteration can raise is the `TypeError` of
the unguarded position read. -/
theorem planetRow_error (solarZ : Option ℚ) (planetsZ : List ℚ) (N : ℕ)
    (copyAngles : List ℝ) (norm : List (ℝ × ℝ)) (k : ℕ) (prevAbs : List ℝ)
    (e : String)
    (h : planetRow solarZ planetsZ N copyAngles norm k prevAbs = Except.error e) :
    e = typeErrorMsg := by
  unfold planetRow at h
  rcases hk : norm.get? k with _ | p
  · simp only [hk] at h
    injection h with h
    exact h.symm
  · simp only [hk] at h
    exact Except.noConfusion h

/-- A planet-phase iteration whose position index is in range succeeds. -/
theorem planetRow_ok (solarZ : Option ℚ) (planetsZ : List ℚ) (N : ℕ)
    (copyAngles : List ℝ) (norm : List (ℝ × ℝ)) (k : ℕ) (prevAbs : List ℝ)
    (h : k < norm.length) :
    ∃ row, planetRow solarZ planetsZ N copyAngles norm k prevAbs =
      Except.ok row := by
  unfold planetRow
  rw [List.get?_eq_get h]
  exact ⟨_, rfl⟩

/-- When every chain index is within the normalised position list, the
planet-phase loop succeeds. -/
theorem planetRowsAux_ok (solarZ : Option ℚ) (planetsZ : List ℚ) (N : ℕ)
    (copyAngles : List ℝ) (norm : List (ℝ × ℝ)) :
    ∀ (ks : List ℕ) (prevAbs : List ℝ), (∀ k ∈ ks, k < norm.length) →
      ∃ rows, planetRowsAux solarZ planetsZ N copyAngles norm ks prevAbs =
        Except.ok rows := by
  intro ks
  induction ks with
  | nil => exact fun _ _ => ⟨[], rfl⟩
  | cons k ks ih =>
    intro prevAbs hall
    obtain ⟨row, hrow⟩ := planetRow_ok solarZ planetsZ N copyAngles norm k prevAbs
      (hall k (List.mem_cons_self k ks))
    obtain ⟨rest, hrest⟩ := ih row (fun x hx => hall x (List.mem_cons_of_mem k hx))
    exact ⟨row :: rest, by simp only [planetRowsAux, hrow, hrest]⟩

/-- When some chain index falls outside the normalised position list, the
planet-phase loop raises the `TypeError`. -/
theorem planetRowsAux_error (solarZ : Option ℚ) (planetsZ : List ℚ) (N : ℕ)
    (copyAngles : List ℝ) (norm : List (ℝ × ℝ)) :
    ∀ (ks : List ℕ) (prevAbs : List ℝ), (∃ k ∈ ks, norm.length ≤ k) →
      planetRowsAux solarZ planetsZ N copyAngles norm ks prevAbs =
        Except.error typeErrorMsg := by
  intro ks
  induction ks with
  | nil =>
    rintro _ ⟨k, hk, _⟩
    simp at hk
  | cons k ks ih =>
    rintro prevAbs ⟨x, hx, hxge⟩
    rcases hrow : planetRow solarZ planetsZ N copyAngles norm k prevAbs with e | row
    · have he := planetRow_error solarZ planetsZ N copyAngles norm k prevAbs e hrow
      subst he
      simp only [planetRowsAux, hrow]
    · have hklt : k < norm.length := by
        by_contra hnk
        push_neg at hnk
        have hnone : norm.get? k = none := List.get?_eq_none.mpr hnk
        unfold planetRow at hrow
        simp only [hnone] at hrow
        exact Except.noConfusion hrow
      rcases List.mem_cons.mp hx with rfl | hxs
      · omega
      · have hrest := ih row ⟨x, hxs, hxge⟩
        simp only [planetRowsAux, hrow, hrest]

/-- **C9.**  `computeStagePhasing` is total exactly under the precondition
`positions.length ≥ planetsZ.length`: with fewer positions than planets the
unguarded `normPositions[k]` read makes `currPos[0]` throw the `TypeError`,
and with the precondition satisfied the error branch is unreachable and a
phasing result is returned. -/
theorem c9_positions_precondition (inp : PhasingIn) :
    (inp.positions.length < inp.planetsZ.length →
      computeStagePhasing inp = Except.error typeErrorMsg) ∧
    (inp.planetsZ.length ≤ inp.positions.length →
      ∃ out, computeStagePhasing inp = Except.ok out) := by
  constructor
  · intro hlt
    have herr := planetRowsAux_error inp.solarZ inp.planetsZ (armCopies inp.copies)
      (computeArmAngles ((armCopies inp.copies : ℕ) : ℚ) inp.solarZ inp.annulusZ
        inp.planetsZ)
      (normPositionsOf inp.positions) (List.range inp.planetsZ.length) []
      ⟨inp.positions.length, List.mem_range.mpr hlt,
        le_of_eq (normPositionsOf_length inp.positions)⟩
    simp only [computeStagePhasing]
    rw [herr]
  · intro hge
    obtain ⟨rows, hok⟩ := planetRowsAux_ok inp.solarZ inp.planetsZ
      (armCopies inp.copies)
      (computeArmAngles ((armCopies inp.copies : ℕ) : ℚ) inp.solarZ inp.annulusZ
        inp.planetsZ)
      (normPositionsOf inp.positions) (List.range inp.planetsZ.length) []
      (fun k hk => by
        rw [normPositionsOf_length]
        exact lt_of_lt_of_le (List.mem_range.mp hk) hge)
    simp only [computeStagePhasing, hok]
    exact ⟨_, rfl⟩

/-- **C9 (witness).**  One planet with no position data throws the
`TypeError`; one planet with one position returns a phasing result. -/
theorem c9_witness :
    computeStagePhasing (PhasingIn.mk 1 none none [10] 1 []) =
      Except.error typeErrorMsg ∧
    ∃ out, computeStagePhasing
      (PhasingIn.mk 1 (some 20) (some 60) [20] 1 [((5 : ℝ), 0)]) =
        Except.ok out := by
  constructor
  · exact (c9_positions_precondition (PhasingIn.mk 1 none none [10] 1 [])).1
      (by simp)
  · exact (c9_positions_precondition
      (PhasingIn.mk 1 (some 20) (some 60) [20] 1 [((5 : ℝ), 0)])).2 (by simp)

end Engrenarium
